import Mathlib

/-!
# SocketDemo: the game loop, start-up and action dispatch of `Game.cpp`

A shallow embedding of `Game::init`, `Game::cleanup`, `Game::doLoop`, `Game::getInput`,
`Game::update`, `Game::render`, `Game::createUnit` and `Game::HandleAction`.

Every function of `Game` is embedded as a function that returns the list of side-effecting
calls it makes on its collaborators (network manager, unit manager, system, timers), in
program order, together with the new values of the fields of `Game` it assigns.  The
collaborators themselves (`NetworkManager`, `UnitManager`, `System`, ...) are not part of
the embedded sources: what their `const` queries answer is read from an environment record.

`float` and `double` quantities (the flush timer, the target frame time, coordinates) are
rationals.  `service`, `tick` and `doLoop` add them exactly; `serviceFloat`, `tickFloat` and
`doLoopFloat` are the same functions with the rounding of the flush timer, a `float` to
which a `double` is added, which decides on which iteration the timer reaches 500.  A
failed `assert`, a dereferenced null pointer and an uncaught exception end the program:
the embedded function then returns `none`.
-/

namespace SocketDemo

/-! ## Data -/

/-- The class `Vector2D` (its header is not among the sources): a pair of coordinates. -/
structure Vector2D where
  x : ℚ
  y : ℚ
deriving DecidableEq

/-- Modelled from the spec: the enumeration `ActionTypes` is declared outside the sources;
the spec gives six action kinds, and these are the six enumerators `Game.cpp` names for
them. -/
inductive ActionTypes where
  | ToggleAnimAll
  | ToggleAnimSingle
  | CreateUnit
  | CreateUnitRand
  | CreateUnitMove
  | DestroyUnit
deriving DecidableEq

/-- The enumeration `UnitTypes` (declared outside the sources), with the three enumerators
`Game::createUnit` switches on. -/
inductive UnitTypes where
  | BASE_UNIT
  | RAND_SPAWN
  | RAND_DIR
deriving DecidableEq

/-- The keys of the graphics buffers (declared outside the sources): the four
`Game::loadBuffers` creates. -/
inductive GraphicsBufferID where
  | WOODS
  | SMURFS
  | DEAN
  | NUMBERED
deriving DecidableEq

/-- Modelled from the spec: `NetworkManager::NetworkManagerState` is declared in
`NetworkManager.h`, which is not among the sources; the spec gives the session states
Uninitialized, Delayed and Active.  `Game.cpp` names only `NMS_Delay`. -/
inductive NetworkManagerState where
  | NMS_Uninitialized
  | NMS_Delay
  | NMS_Active
deriving DecidableEq

/-- What `Game.cpp` uses of a `Unit*`: an identity and the answer of `getCenterPosition()`. -/
structure GameUnit where
  id : Nat
  centerPosition : Vector2D
deriving DecidableEq

/-- The arguments of the `Animation` constructor. -/
structure Animation where
  buffer : GraphicsBufferID
  pixelWidth : Nat
  pixelHeight : Nat
  spritesAcross : Nat
  spritesDown : Nat
  timePerFrame : ℚ
deriving DecidableEq

/-- A `SocketAddress` as made by `SocketAddressFactory::CreateIPv4FromString` (declared
outside the sources): an IPv4 host and a port. -/
structure SocketAddress where
  host : Nat
  port : Nat
deriving DecidableEq

/-- The side-effecting calls `Game.cpp` makes, those into `Game`'s own member functions
(`getInput`, `update`, `render`, `createUnit`) included. -/
inductive Call where
  | SocketUtil_StaticInit
  | SocketUtil_CleanUp
  | new_NetworkManager
  | InitAsMasterPeer (port : Int) (name : String)
  | InitAsPeer (address : SocketAddress) (name : String)
  | LOG (msg : String)
  | System_init (width height : Nat)
  | System_cleanup
  | new_MemoryManager
  | MemoryManager_init
  | new_GraphicsBufferManager
  | new_UnitManager
  | loadBuffers
  | createBuffer (key : GraphicsBufferID) (path : String)
  | delete_UnitManager
  | delete_GraphicsBufferManager
  | delete_MemoryManager
  | delete_NetworkManager
  | cleanup
  | tracker_clearTracker (name : String)
  | tracker_startTracking (name : String)
  | tracker_stopTracking (name : String)
  | timer_start
  | timer_sleepUntilElapsed (ms : ℚ)
  | getInput
  | update (dt : ℚ)
  | UnitManager_update (dt : ℚ)
  | Timing_Update
  | ProcessIncomingPackets
  | SendOutgoingPackets
  | addAction (type : ActionTypes) (pos : Vector2D)
  | TryStartGame
  | toggleAnimation (unit : GameUnit)
  | togglePauseStateForAllAnimations
  | createUnit (pos : Vector2D) (type : UnitTypes)
  | UnitManager_createUnit (pos : Vector2D) (first second : Animation)
  | deleteAllUnitsAt2DPosition (pos : Vector2D)
  | rand
  | render
  | GraphicsSystem_draw (pos : Vector2D) (buffer : GraphicsBufferID) (scale : ℚ)
  | UnitManager_draw
  | flip
deriving DecidableEq

/-- The input snapshot `System` answers `isKeyPressed`, `isMouseButtonPressed` and
`getCurrentMousePos` from. -/
structure InputState where
  ESCAPE_KEY : Bool
  ENTER_KEY : Bool
  SPACE_KEY : Bool
  ONE_KEY : Bool
  TWO_KEY : Bool
  S_KEY : Bool
  LEFT : Bool
  RIGHT : Bool
  mousePos : Vector2D

/-- The answers of the collaborators' queries during one tick: the input snapshot,
`getLastUnitCreated()` (`none` for a null pointer), `IsMasterPeer()`, `GetState()`, the two
values `rand()` returns, and whether `getBuffer(key)` is non-null. -/
structure Env where
  input : InputState
  getLastUnitCreated : Option GameUnit
  IsMasterPeer : Bool
  GetState : NetworkManagerState
  rand1 : Nat
  rand2 : Nat
  getBuffer : GraphicsBufferID → Bool

/-- The fields of `Game` that `Game.cpp` reads and assigns.  A manager pointer is `true`
while it points to a live object. -/
structure Game where
  mIsInitted : Bool
  mShouldContinue : Bool
  gameStarted : Bool
  mTargetTimePerFrame : ℚ
  mpNetworkManager : Bool
  mpMemoryManager : Bool
  mpGraphicsBufferManager : Bool
  mpUnitManager : Bool

/-! ## Unit creation and action dispatch -/

def PIXEL_WIDTH : Nat := 60
def PIXEL_HEIGHT : Nat := 60
def SPRITES_ACROSS : Nat := 4
def SPRITES_DOWN : Nat := 4
def TIME_PER_FRAME_MULTIPLE : ℚ := 5

/-- The call `Animation(buffer, PIXEL_WIDTH, PIXEL_HEIGHT, SPRITES_ACROSS, SPRITES_DOWN, t)`. -/
def mkAnimation (buffer : GraphicsBufferID) (timePerFrame : ℚ) : Animation :=
  ⟨buffer, PIXEL_WIDTH, PIXEL_HEIGHT, SPRITES_ACROSS, SPRITES_DOWN, timePerFrame⟩

/-- The function `Game::createUnit`.  Each case looks its two buffers up; a missing buffer
fails an `assert` or is dereferenced, which ends the program (`none`); with the asserts
passed the guard `if (pSmurfs)` of the first case holds. -/
def createUnit (g : Game) (e : Env) (pos : Vector2D) (type : UnitTypes) : Option (List Call) :=
  let timePerFrame := g.mTargetTimePerFrame * TIME_PER_FRAME_MULTIPLE
  match type with
  | .BASE_UNIT =>
    if e.getBuffer .SMURFS && e.getBuffer .DEAN then
      some [.createUnit pos .BASE_UNIT,
        .UnitManager_createUnit pos (mkAnimation .SMURFS timePerFrame)
          (mkAnimation .DEAN timePerFrame)]
    else none
  | .RAND_SPAWN =>
    if e.getBuffer .SMURFS && e.getBuffer .DEAN then
      some [.createUnit pos .RAND_SPAWN,
        .UnitManager_createUnit pos (mkAnimation .DEAN timePerFrame)
          (mkAnimation .SMURFS timePerFrame)]
    else none
  | .RAND_DIR =>
    if e.getBuffer .NUMBERED && e.getBuffer .DEAN then
      some [.createUnit pos .RAND_DIR,
        .UnitManager_createUnit pos (mkAnimation .NUMBERED timePerFrame)
          (mkAnimation .DEAN timePerFrame)]
    else none

/-- The function `Game::HandleAction`: the switch over the action type. -/
def HandleAction (g : Game) (e : Env) (type : ActionTypes) (pos : Vector2D) :
    Option (List Call) :=
  match type with
  | .ToggleAnimAll => some [.togglePauseStateForAllAnimations]
  | .ToggleAnimSingle =>
    match e.getLastUnitCreated with
    | some pUnit => some [.toggleAnimation pUnit]
    | none => some []
  | .CreateUnit => createUnit g e pos .BASE_UNIT
  | .CreateUnitRand =>
    match createUnit g e pos .RAND_SPAWN with
    | some cs => some ([.rand, .rand] ++ cs)
    | none => none
  | .CreateUnitMove => createUnit g e pos .RAND_DIR
  | .DestroyUnit => some [.deleteAllUnitsAt2DPosition pos]

/-! ## Input -/

/-- The `ENTER_KEY` block of `Game::getInput`. -/
def inputEnter (e : Env) : List Call :=
  if e.input.ENTER_KEY then
    match e.getLastUnitCreated with
    | some pUnit => [.toggleAnimation pUnit, .addAction .ToggleAnimSingle pUnit.centerPosition]
    | none => []
  else []

/-- The `SPACE_KEY` block of `Game::getInput`. -/
def inputSpace (e : Env) : List Call :=
  if e.input.SPACE_KEY then
    [.togglePauseStateForAllAnimations, .addAction .ToggleAnimAll ⟨0, 0⟩]
  else []

/-- The left-mouse-button block of `Game::getInput`. -/
def inputLeft (g : Game) (e : Env) : Option (List Call) :=
  if e.input.LEFT then
    match createUnit g e e.input.mousePos .BASE_UNIT with
    | some cs => some (cs ++ [.addAction .CreateUnit e.input.mousePos])
    | none => none
  else some []

/-- The right-mouse-button block of `Game::getInput`. -/
def inputRight (e : Env) : List Call :=
  if e.input.RIGHT then
    [.deleteAllUnitsAt2DPosition e.input.mousePos, .addAction .DestroyUnit e.input.mousePos]
  else []

/-- The `ONE_KEY` block of `Game::getInput`. -/
def inputOne (g : Game) (e : Env) : Option (List Call) :=
  if e.input.ONE_KEY then
    match createUnit g e e.input.mousePos .RAND_DIR with
    | some cs => some (cs ++ [.addAction .CreateUnitMove e.input.mousePos])
    | none => none
  else some []

/-- The position `Vector2D position(rand() % 800, rand() % 600)` of the `TWO_KEY` block. -/
def randPosition (e : Env) : Vector2D :=
  ⟨((e.rand1 % 800 : Nat) : ℚ), ((e.rand2 % 600 : Nat) : ℚ)⟩

/-- The `TWO_KEY` block of `Game::getInput`. -/
def inputTwo (g : Game) (e : Env) : Option (List Call) :=
  if e.input.TWO_KEY then
    match createUnit g e (randPosition e) .RAND_SPAWN with
    | some cs => some ([.rand, .rand] ++ cs ++ [.addAction .CreateUnitRand (randPosition e)])
    | none => none
  else some []

/-- The body of `if (gameStarted) \x7b ... \x7d` in `Game::getInput`: the six blocks in order. -/
def inputStarted (g : Game) (e : Env) : Option (List Call) :=
  match inputLeft g e with
  | none => none
  | some left =>
    match inputOne g e with
    | none => none
    | some one =>
      match inputTwo g e with
      | none => none
      | some two => some (inputEnter e ++ inputSpace e ++ left ++ inputRight e ++ one ++ two)

/-- The function `Game::getInput`: the escape key clears `mShouldContinue`; the action keys
count only when `gameStarted`; the start key starts the game on the master peer. -/
def getInput (g : Game) (e : Env) : Option (Game × List Call) :=
  let g1 : Game := if e.input.ESCAPE_KEY then { g with mShouldContinue := false } else g
  match (if g.gameStarted then inputStarted g e else some []) with
  | none => none
  | some cs =>
    if e.input.S_KEY && !g.gameStarted && e.IsMasterPeer then
      some ({ g1 with gameStarted := true }, .getInput :: cs ++ [.TryStartGame])
    else
      some (g1, .getInput :: cs)

/-! ## The loop -/

/-- The function `Game::update`. -/
def update (dt : ℚ) : List Call :=
  [.update dt, .UnitManager_update dt, .Timing_Update]

/-- The function `Game::render`; the background buffer is dereferenced. -/
def render (e : Env) : Option (List Call) :=
  if e.getBuffer .WOODS then
    some [.render, .GraphicsSystem_draw ⟨0, 0⟩ .WOODS (1 / 2), .UnitManager_draw, .flip]
  else none

/-- What one iteration of the loop of `Game::doLoop` leaves: the fields of `Game`, the local
`packetTimer`, and the calls made. -/
structure TickResult where
  game : Game
  packetTimer : ℚ
  calls : List Call

/-- The network part of one iteration of `Game::doLoop`: the `if`/`else` on
`GetState() != NMS_Delay`, giving the new `packetTimer` and the calls.  The addition is
exact here; `serviceFloat` rounds it as the `float` timer does. -/
def service (g : Game) (packetTimer : ℚ) (e : Env) : ℚ × List Call :=
  if e.GetState ≠ .NMS_Delay then
    let packetTimer1 := packetTimer + g.mTargetTimePerFrame
    if packetTimer1 ≥ 500 then
      (0, update g.mTargetTimePerFrame ++ [.ProcessIncomingPackets, .SendOutgoingPackets])
    else
      (packetTimer1, update g.mTargetTimePerFrame ++ [.ProcessIncomingPackets])
  else
    (packetTimer, [.ProcessIncomingPackets])

/-- One iteration of the `while` loop of `Game::doLoop`. -/
def tick (g : Game) (packetTimer : ℚ) (e : Env) : Option TickResult :=
  match getInput g e with
  | none => none
  | some (g1, inputCalls) =>
    match render e with
    | none => none
    | some renderCalls =>
      some
        { game := g1
          packetTimer := (service g1 packetTimer e).1
          calls :=
            [.tracker_clearTracker "loop", .tracker_startTracking "loop", .timer_start]
              ++ inputCalls ++ (service g1 packetTimer e).2 ++ renderCalls
              ++ [.timer_sleepUntilElapsed g1.mTargetTimePerFrame,
                  .tracker_stopTracking "loop"] }

/-- The loop of `Game::doLoop` from a given `packetTimer`, one environment per iteration; it
stops when `mShouldContinue` is false, and when the environments run out. -/
def doLoopFrom (g : Game) (packetTimer : ℚ) : List Env → Option (List TickResult)
  | [] => some []
  | e :: es =>
    if g.mShouldContinue then
      match tick g packetTimer e with
      | none => none
      | some r =>
        match doLoopFrom r.game r.packetTimer es with
        | none => none
        | some rs => some (r :: rs)
    else some []

/-- The function `Game::doLoop`: `packetTimer` starts at `0.f`. -/
def doLoop (g : Game) (envs : List Env) : Option (List TickResult) :=
  doLoopFrom g 0 envs

/-! ## The loop with the flush timer in floating point

`packetTimer` is a `float` and `mTargetTimePerFrame` a `double`.  The definitions above
take both as exact rationals; where the flush timer is compared with 500 the rounding of
`packetTimer += mTargetTimePerFrame` matters, and the definitions below keep it: the sum is
formed in binary64 and stored in binary32, each rounded to nearest, ties to even. -/

/-- A value of a binary floating-point format that finite operands produce: a rational, or
an infinity after an overflow. -/
inductive FloatVal where
  | finite (q : ℚ)
  | posInf
  | negInf
deriving DecidableEq

/-- The integer nearest to `m`, the even one of the two when `m` is half-way. -/
def roundHalfEven (m : ℚ) : ℤ :=
  if m - ⌊m⌋ < 1 / 2 then ⌊m⌋
  else if 1 / 2 < m - ⌊m⌋ then ⌊m⌋ + 1
  else if ⌊m⌋ % 2 = 0 then ⌊m⌋
  else ⌊m⌋ + 1

/-- Rounding of the rational `x` to the binary format with `precision` significand bits
and exponents from `emin` to `emax`, to nearest, ties to even: the significand is counted
in units of `2 ^ (exponent - (precision - 1))`, the exponent being that of `x` and at least
`emin` (subnormal numbers); a result of `2 ^ (emax + 1)` or more is an overflow. -/
def roundNearest (precision : ℕ) (emin emax : ℤ) (x : ℚ) : FloatVal :=
  if x = 0 then .finite 0
  else
    let exponent : ℤ := max (Int.log 2 |x|) emin
    let quantum : ℚ := 2 ^ (exponent - ((precision : ℤ) - 1))
    let rounded : ℚ := (roundHalfEven (x / quantum) : ℚ) * quantum
    if 2 ^ (emax + 1) ≤ rounded then .posInf
    else if rounded ≤ -2 ^ (emax + 1) then .negInf
    else .finite rounded

/-- Rounding to a `double` (binary64). -/
def toDouble (x : ℚ) : FloatVal :=
  roundNearest 53 (-1022) 1023 x

/-- Rounding to a `float` (binary32). -/
def toFloat (x : ℚ) : FloatVal :=
  roundNearest 24 (-126) 127 x

/-- The statement `packetTimer += mTargetTimePerFrame`: the `float` is widened to `double`,
the sum is a `double`, and the assignment narrows it to `float`. -/
def addToTimer (packetTimer : FloatVal) (dt : ℚ) : FloatVal :=
  match packetTimer with
  | .finite t =>
    match toDouble (t + dt) with
    | .finite sum => toFloat sum
    | .posInf => .posInf
    | .negInf => .negInf
  | .posInf => .posInf
  | .negInf => .negInf

/-- The test `packetTimer >= 500.f`. -/
def reachesThreshold (packetTimer : FloatVal) : Bool :=
  match packetTimer with
  | .finite t => decide (500 ≤ t)
  | .posInf => true
  | .negInf => false

/-- The network part of one iteration of `Game::doLoop`, as `service`, with the `float`
arithmetic of `packetTimer`. -/
def serviceFloat (g : Game) (packetTimer : FloatVal) (e : Env) : FloatVal × List Call :=
  if e.GetState ≠ .NMS_Delay then
    let packetTimer1 := addToTimer packetTimer g.mTargetTimePerFrame
    if reachesThreshold packetTimer1 then
      (.finite 0,
        update g.mTargetTimePerFrame ++ [.ProcessIncomingPackets, .SendOutgoingPackets])
    else
      (packetTimer1, update g.mTargetTimePerFrame ++ [.ProcessIncomingPackets])
  else
    (packetTimer, [.ProcessIncomingPackets])

/-- What one iteration of the loop leaves, the `packetTimer` a `float`. -/
structure FloatTickResult where
  game : Game
  packetTimer : FloatVal
  calls : List Call

/-- One iteration of the `while` loop of `Game::doLoop`, as `tick`, with the `float`
arithmetic of `packetTimer`. -/
def tickFloat (g : Game) (packetTimer : FloatVal) (e : Env) : Option FloatTickResult :=
  match getInput g e with
  | none => none
  | some (g1, inputCalls) =>
    match render e with
    | none => none
    | some renderCalls =>
      some
        { game := g1
          packetTimer := (serviceFloat g1 packetTimer e).1
          calls :=
            [.tracker_clearTracker "loop", .tracker_startTracking "loop", .timer_start]
              ++ inputCalls ++ (serviceFloat g1 packetTimer e).2 ++ renderCalls
              ++ [.timer_sleepUntilElapsed g1.mTargetTimePerFrame,
                  .tracker_stopTracking "loop"] }

/-- The loop of `Game::doLoop` from a given `packetTimer`, as `doLoopFrom`, with the
`float` arithmetic of `packetTimer`. -/
def doLoopFloatFrom (g : Game) (packetTimer : FloatVal) :
    List Env → Option (List FloatTickResult)
  | [] => some []
  | e :: es =>
    if g.mShouldContinue then
      match tickFloat g packetTimer e with
      | none => none
      | some r =>
        match doLoopFloatFrom r.game r.packetTimer es with
        | none => none
        | some rs => some (r :: rs)
    else some []

/-- The function `Game::doLoop` with the `float` arithmetic of `packetTimer`, which starts
at `0.f`. -/
def doLoopFloat (g : Game) (envs : List Env) : Option (List FloatTickResult) :=
  doLoopFloatFrom g (.finite 0) envs

/-- The `packetTimer` after `k` additions of `dt` from `0.f` with no reset between. -/
def timerAfter (dt : ℚ) : ℕ → FloatVal
  | 0 => .finite 0
  | k + 1 => addToTimer (timerAfter dt k) dt

/-! ## Start-up and shut-down -/

/-- The answers of the start-up collaborators: `StringUtils::GetCommandLineArg(1)` and `(2)`
(empty when the argument is missing), and `SocketAddressFactory::CreateIPv4FromString`
(`none` for a null pointer). -/
structure InitEnv where
  arg1 : String
  arg2 : String
  CreateIPv4FromString : String → Option SocketAddress

/-- The white-space characters `strtol` skips (`isspace` in the C locale). -/
def isSpace (c : Char) : Bool :=
  c.toNat = 32 || (9 ≤ c.toNat && c.toNat ≤ 13)

/-- The value of a string of decimal digits. -/
def digitsValue (ds : List Char) : Int :=
  ds.foldl (fun acc c => acc * 10 + ((c.toNat - 48 : Nat) : Int)) 0

/-- The function `std::stoi` in base 10 on a 32-bit `int`: leading white space, an optional
sign, then the longest run of digits; `none` for the exceptions `invalid_argument` (no
digit) and `out_of_range`. -/
def stoi (s : String) : Option Int :=
  let body := s.toList.dropWhile isSpace
  let negative : Bool := body.head? = some '-'
  let unsigned : List Char :=
    if body.head? = some '-' ∨ body.head? = some '+' then body.tail else body
  let digits := unsigned.takeWhile Char.isDigit
  if digits = [] then none
  else
    let value : Int := if negative then -digitsValue digits else digitsValue digits
    if -2147483648 ≤ value ∧ value ≤ 2147483647 then some value else none

/-- The string `s` is a bare decimal port `p`: a non-empty run of decimal digits of value
`p`, at most 65535. -/
def IsBarePort (s : String) (p : Int) : Prop :=
  s.toList ≠ [] ∧ (∀ c ∈ s.toList, c.isDigit = true) ∧ digitsValue s.toList = p ∧ p ≤ 65535

/-- The function `Game::cleanup`. -/
def cleanup (g : Game) : Game × List Call :=
  if g.mIsInitted then
    ({ g with
        mpUnitManager := false
        mpGraphicsBufferManager := false
        mpMemoryManager := false
        mpNetworkManager := false
        mIsInitted := false },
      [.cleanup, .delete_UnitManager, .delete_GraphicsBufferManager, .delete_MemoryManager,
        .delete_NetworkManager, .System_cleanup, .SocketUtil_CleanUp])
  else
    ({ g with mIsInitted := false }, [.cleanup, .SocketUtil_CleanUp])

/-- The command-line values `Game::init` goes on with: when either is empty, both are
replaced. -/
def commandLine (destination name : String) : String × String :=
  if destination = "" ∨ name = "" then ("8000", "Harris") else (destination, name)

def ASSET_PATH : String := "..\\..\\..\\assets\\"

/-- The function `Game::loadBuffers`. -/
def loadBuffers : List Call :=
  [.loadBuffers,
    .createBuffer .WOODS (ASSET_PATH ++ "woods.png"),
    .createBuffer .SMURFS (ASSET_PATH ++ "smurf_sprites.png"),
    .createBuffer .DEAN (ASSET_PATH ++ "dean_sprites.png"),
    .createBuffer .NUMBERED (ASSET_PATH ++ "smurf_sprites_numbered.png")]

/-- The end of `Game::init`, after the network manager is initialised: the system, the
memory manager, the buffer and unit managers, the buffers, and `mIsInitted = true`. -/
def initRest (g : Game) (width height : Nat) (targetTimePerFrame : ℚ) : Game × List Call :=
  ({ g with
      mTargetTimePerFrame := targetTimePerFrame
      mpMemoryManager := true
      mpGraphicsBufferManager := true
      mpUnitManager := true
      mIsInitted := true },
    [.System_init width height, .new_MemoryManager, .MemoryManager_init,
      .new_GraphicsBufferManager, .new_UnitManager] ++ loadBuffers)

/-- The function `Game::init`: the returned flag, the fields of `Game` and the calls made;
`none` when `stoi` throws. -/
def init (g : Game) (ie : InitEnv) (width height : Nat) (targetTimePerFrame : ℚ) :
    Option (Bool × Game × List Call) :=
  let g0 : Game × List Call := if g.mIsInitted then cleanup g else (g, [])
  let destination := (commandLine ie.arg1 ie.arg2).1
  let name := (commandLine ie.arg1 ie.arg2).2
  let g1 : Game := { g0.1 with mpNetworkManager := true }
  let calls1 : List Call := g0.2 ++ [.SocketUtil_StaticInit, .new_NetworkManager]
  if ':' ∉ destination.toList then
    match stoi destination with
    | none => none
    | some port =>
      some (true, (initRest g1 width height targetTimePerFrame).1,
        calls1 ++ [.InitAsMasterPeer port name]
          ++ (initRest g1 width height targetTimePerFrame).2)
  else
    match ie.CreateIPv4FromString destination with
    | none =>
      some (false, g1,
        calls1 ++ [.LOG "ERROR: Unable to create target address from destination."])
    | some targetAddress =>
      some (true, (initRest g1 width height targetTimePerFrame).1,
        calls1 ++ [.InitAsPeer targetAddress name]
          ++ (initRest g1 width height targetTimePerFrame).2)


/-! ## Observing the calls -/

/-- A call of `Game::update`. -/
def Call.isUpdate : Call → Bool
  | .update _ => true
  | _ => false

/-- A call of `NetworkManager::ProcessIncomingPackets`. -/
def Call.isProcessIncoming : Call → Bool
  | .ProcessIncomingPackets => true
  | _ => false

/-- A call of `NetworkManager::SendOutgoingPackets`. -/
def Call.isSendOutgoing : Call → Bool
  | .SendOutgoingPackets => true
  | _ => false

/-- A call of `NetworkManager::addAction`. -/
def Call.isAddAction : Call → Bool
  | .addAction _ _ => true
  | _ => false

/-- A call of `NetworkManager::TryStartGame`. -/
def Call.isTryStartGame : Call → Bool
  | .TryStartGame => true
  | _ => false

/-- A call that creates a unit, deletes units or toggles an animation. -/
def Call.isUnitMutation : Call → Bool
  | .toggleAnimation _ => true
  | .togglePauseStateForAllAnimations => true
  | .createUnit _ _ => true
  | .UnitManager_createUnit _ _ _ => true
  | .deleteAllUnitsAt2DPosition _ => true
  | _ => false

/-- The calls the body of `if (gameStarted)` in `Game::getInput` can make. -/
def Call.isLocalAction : Call → Bool
  | .addAction _ _ => true
  | .toggleAnimation _ => true
  | .togglePauseStateForAllAnimations => true
  | .createUnit _ _ => true
  | .UnitManager_createUnit _ _ _ => true
  | .deleteAllUnitsAt2DPosition _ => true
  | .rand => true
  | _ => false

/-- The calls `Game::getInput` can make. -/
def Call.isInputCall : Call → Bool
  | .getInput => true
  | .addAction _ _ => true
  | .TryStartGame => true
  | .toggleAnimation _ => true
  | .togglePauseStateForAllAnimations => true
  | .createUnit _ _ => true
  | .UnitManager_createUnit _ _ _ => true
  | .deleteAllUnitsAt2DPosition _ => true
  | .rand => true
  | _ => false

/-- A call of `Game::render`. -/
def Call.isRender : Call → Bool
  | .render => true
  | _ => false

/-- A call of `InitAsMasterPeer`. -/
def Call.isInitAsMasterPeer : Call → Bool
  | .InitAsMasterPeer _ _ => true
  | _ => false

/-- A call of `InitAsPeer`. -/
def Call.isInitAsPeer : Call → Bool
  | .InitAsPeer _ _ => true
  | _ => false

/-- The creation of a unit manager, a graphics buffer manager or a memory manager. -/
def Call.isManagerCreation : Call → Bool
  | .new_UnitManager => true
  | .new_GraphicsBufferManager => true
  | .new_MemoryManager => true
  | _ => false

/-- A call of `rand`. -/
def Call.isRand : Call → Bool
  | .rand => true
  | _ => false

/-- The actions a list of calls enqueues with `addAction`, in order. -/
def addedActions : List Call → List (ActionTypes × Vector2D)
  | [] => []
  | .addAction type pos :: cs => (type, pos) :: addedActions cs
  | _ :: cs => addedActions cs

/-- For each action of a list in order: the calls `Game::HandleAction` makes for it, and
then the call of `addAction` that enqueues it. -/
def localReplay (g : Game) (e : Env) : List (ActionTypes × Vector2D) → Option (List Call)
  | [] => some []
  | (type, pos) :: rest =>
    match HandleAction g e type pos with
    | none => none
    | some hc =>
      match localReplay g e rest with
      | none => none
      | some rc => some (hc ++ [.addAction type pos] ++ rc)

/-- The calls `cs` are, for each action they enqueue in order, exactly the calls of
`Game::HandleAction` for it followed by the call of `addAction`. -/
def ReplaysLocally (g : Game) (e : Env) (cs : List Call) : Prop :=
  localReplay g e (addedActions cs) = some cs

/-- Whether the iteration numbered `n` (from 1) called `SendOutgoingPackets`, the calls of
the iterations given in order. -/
def flushedAt (ticks : List (List Call)) : Nat → Bool
  | 0 => false
  | n + 1 =>
    match ticks[n]? with
    | some cs => cs.any Call.isSendOutgoing
    | none => false

/-- The number of the last iteration before iteration `n` that called
`SendOutgoingPackets`, and 0 (the start) when there is none. -/
def prevFlush (ticks : List (List Call)) : Nat → Nat
  | 0 => 0
  | n + 1 => if flushedAt ticks n then n else prevFlush ticks n

/-- In `cs` a call satisfying `p` is made before the first call satisfying `q`, which
exists. -/
def precedes (p q : Call → Bool) (cs : List Call) : Prop :=
  cs.findIdx p < cs.findIdx q ∧ cs.findIdx q < cs.length

instance (p q : Call → Bool) (cs : List Call) : Decidable (precedes p q cs) := by
  unfold precedes
  infer_instance

/-- Every buffer `Game::loadBuffers` creates is found by `getBuffer`. -/
def Env.buffersLoaded (e : Env) : Prop :=
  ∀ key, e.getBuffer key = true

/-! ## Sample values -/

/-- A game after a successful `init` with the default frame time, the game started. -/
def startedGame : Game :=
  ⟨true, true, true, 167 / 10, true, true, true, true⟩

/-- A game after a successful `init` with the default frame time, the game not started. -/
def waitingGame : Game :=
  ⟨true, true, false, 167 / 10, true, true, true, true⟩

/-- A game after a successful `init` with a frame time of 250, the game started. -/
def coarseGame : Game :=
  ⟨true, true, true, 250, true, true, true, true⟩

/-- The frame time `250 - 2 ^ (-30)`, a `double` that is not a `float`. -/
def skewedFrameTime : ℚ := 250 - 1 / 2 ^ 30

/-- A game after a successful `init` with the frame time `250 - 2 ^ (-30)`, the game
started. -/
def skewedGame : Game :=
  ⟨true, true, true, skewedFrameTime, true, true, true, true⟩

/-- No key and no button pressed, the mouse at the origin. -/
def noInput : InputState :=
  ⟨false, false, false, false, false, false, false, false, ⟨0, 0⟩⟩

/-- Only the space key pressed. -/
def spaceInput : InputState :=
  ⟨false, false, true, false, false, false, false, false, ⟨0, 0⟩⟩

/-- A game object before the first `init`. -/
def freshGame : Game :=
  ⟨false, true, false, 0, false, false, false, false⟩

/-- An address factory that knows the local host on port 8000 only. -/
def localResolver (s : String) : Option SocketAddress :=
  if s = "127.0.0.1:8000" then some ⟨2130706433, 8000⟩ else none

/-- Only the start key pressed. -/
def startInput : InputState :=
  ⟨false, false, false, false, false, true, false, false, ⟨0, 0⟩⟩

/-- An environment with all buffers loaded, no unit created yet, on a peer. -/
def sampleEnv (input : InputState) (state : NetworkManagerState) : Env :=
  ⟨input, none, false, state, 0, 0, fun _ => true⟩

/-- Four iterations, none in the delayed state, the space key pressed in the second. -/
def activeRun : List Env :=
  [sampleEnv noInput .NMS_Active, sampleEnv spaceInput .NMS_Active,
    sampleEnv noInput .NMS_Active, sampleEnv noInput .NMS_Active]

/-- Four iterations, the second in the delayed state. -/
def mixedRun : List Env :=
  [sampleEnv noInput .NMS_Active, sampleEnv noInput .NMS_Delay,
    sampleEnv noInput .NMS_Active, sampleEnv noInput .NMS_Active]

/-- Every action key and both buttons pressed, the mouse at (100, 200). -/
def busyInput : InputState :=
  ⟨false, true, true, true, true, false, true, true, ⟨100, 200⟩⟩

/-- An environment with all buffers loaded, a last unit at (10, 20), and the draws 1234 and
5678 of `rand()`. -/
def busyEnv : Env :=
  ⟨busyInput, some ⟨7, ⟨10, 20⟩⟩, false, .NMS_Active, 1234, 5678, fun _ => true⟩

/-! ## The calls of `getInput` -/

theorem createUnit_eq {g : Game} {e : Env} {pos : Vector2D} {type : UnitTypes}
    {cs : List Call} (h : createUnit g e pos type = some cs) :
    ∃ a b, cs = [.createUnit pos type, .UnitManager_createUnit pos a b] := by
  unfold createUnit at h
  cases type <;> simp only at h <;> split at h <;> simp at h <;> subst h <;>
    exact ⟨_, _, rfl⟩

theorem createUnit_isSome (g : Game) {e : Env} (hb : e.buffersLoaded) (pos : Vector2D)
    (type : UnitTypes) : ∃ cs, createUnit g e pos type = some cs := by
  unfold createUnit
  cases type <;> simp [hb _]

theorem inputEnter_localActions (e : Env) : ∀ c ∈ inputEnter e, c.isLocalAction = true := by
  unfold inputEnter
  intro c hc
  split at hc
  · split at hc
    · simp at hc
      rcases hc with rfl | rfl <;> rfl
    · simp at hc
  · simp at hc

theorem inputSpace_localActions (e : Env) : ∀ c ∈ inputSpace e, c.isLocalAction = true := by
  unfold inputSpace
  intro c hc
  split at hc
  · simp at hc
    rcases hc with rfl | rfl <;> rfl
  · simp at hc

theorem inputRight_localActions (e : Env) : ∀ c ∈ inputRight e, c.isLocalAction = true := by
  unfold inputRight
  intro c hc
  split at hc
  · simp at hc
    rcases hc with rfl | rfl <;> rfl
  · simp at hc

theorem inputLeft_localActions {g : Game} {e : Env} {cs : List Call}
    (h : inputLeft g e = some cs) : ∀ c ∈ cs, c.isLocalAction = true := by
  unfold inputLeft at h
  split at h
  · split at h
    · rename_i cs1 h1
      obtain ⟨a, b, rfl⟩ := createUnit_eq h1
      simp at h
      subst h
      intro c hc
      simp at hc
      rcases hc with rfl | rfl | rfl <;> rfl
    · simp at h
  · simp at h
    subst h
    simp

theorem inputOne_localActions {g : Game} {e : Env} {cs : List Call}
    (h : inputOne g e = some cs) : ∀ c ∈ cs, c.isLocalAction = true := by
  unfold inputOne at h
  split at h
  · split at h
    · rename_i cs1 h1
      obtain ⟨a, b, rfl⟩ := createUnit_eq h1
      simp at h
      subst h
      intro c hc
      simp at hc
      rcases hc with rfl | rfl | rfl <;> rfl
    · simp at h
  · simp at h
    subst h
    simp

theorem inputTwo_localActions {g : Game} {e : Env} {cs : List Call}
    (h : inputTwo g e = some cs) : ∀ c ∈ cs, c.isLocalAction = true := by
  unfold inputTwo at h
  split at h
  · split at h
    · rename_i cs1 h1
      obtain ⟨a, b, rfl⟩ := createUnit_eq h1
      simp at h
      subst h
      intro c hc
      simp at hc
      rcases hc with rfl | rfl | rfl | rfl <;> rfl
    · simp at h
  · simp at h
    subst h
    simp

theorem inputStarted_eq {g : Game} {e : Env} {cs : List Call}
    (h : inputStarted g e = some cs) :
    ∃ left one two, inputLeft g e = some left ∧ inputOne g e = some one ∧
      inputTwo g e = some two ∧
      cs = inputEnter e ++ inputSpace e ++ left ++ inputRight e ++ one ++ two := by
  unfold inputStarted at h
  split at h
  · simp at h
  · rename_i left hl
    split at h
    · simp at h
    · rename_i one ho
      split at h
      · simp at h
      · rename_i two ht
        simp only [Option.some.injEq] at h
        exact ⟨left, one, two, hl, ho, ht, h.symm⟩

theorem inputStarted_localActions {g : Game} {e : Env} {cs : List Call}
    (h : inputStarted g e = some cs) : ∀ c ∈ cs, c.isLocalAction = true := by
  obtain ⟨left, one, two, hl, ho, ht, rfl⟩ := inputStarted_eq h
  intro c hc
  simp only [List.mem_append] at hc
  rcases hc with ((((hc | hc) | hc) | hc) | hc) | hc
  · exact inputEnter_localActions e c hc
  · exact inputSpace_localActions e c hc
  · exact inputLeft_localActions hl c hc
  · exact inputRight_localActions e c hc
  · exact inputOne_localActions ho c hc
  · exact inputTwo_localActions ht c hc

theorem inputStarted_isSome (g : Game) {e : Env} (hb : e.buffersLoaded) :
    ∃ cs, inputStarted g e = some cs := by
  obtain ⟨c1, h1⟩ := createUnit_isSome g hb e.input.mousePos .BASE_UNIT
  obtain ⟨c2, h2⟩ := createUnit_isSome g hb e.input.mousePos .RAND_DIR
  obtain ⟨c3, h3⟩ := createUnit_isSome g hb (randPosition e) .RAND_SPAWN
  unfold inputStarted inputLeft inputOne inputTwo
  rw [h1, h2, h3]
  by_cases hL : e.input.LEFT = true <;> by_cases hO : e.input.ONE_KEY = true <;>
    by_cases hT : e.input.TWO_KEY = true <;> simp [hL, hO, hT]

/-- What `getInput` returns: the entry, the calls of the started part, and the start call. -/
theorem getInput_eq {g g1 : Game} {e : Env} {cs : List Call}
    (h : getInput g e = some (g1, cs)) :
    ∃ body, (if g.gameStarted then inputStarted g e else some []) = some body ∧
      ((e.input.S_KEY = true ∧ g.gameStarted = false ∧ e.IsMasterPeer = true ∧
          cs = .getInput :: body ++ [.TryStartGame] ∧ g1.gameStarted = true) ∨
        ((e.input.S_KEY = false ∨ g.gameStarted = true ∨ e.IsMasterPeer = false) ∧
          cs = .getInput :: body ∧ g1.gameStarted = g.gameStarted)) ∧
      g1.mTargetTimePerFrame = g.mTargetTimePerFrame ∧
      g1.mShouldContinue = (g.mShouldContinue && !e.input.ESCAPE_KEY) := by
  unfold getInput at h
  simp only at h
  split at h
  · simp at h
  · rename_i body hbody
    refine ⟨body, hbody, ?_⟩
    cases hS : e.input.S_KEY <;> cases hG : g.gameStarted <;> cases hM : e.IsMasterPeer <;>
      simp [hS, hG, hM] at h <;> obtain ⟨rfl, rfl⟩ := h <;>
      cases hE : e.input.ESCAPE_KEY <;> simp [hE, hG]

theorem isInputCall_of_localAction (c : Call) (h : c.isLocalAction = true) :
    c.isInputCall = true := by
  cases c <;> simp_all [Call.isInputCall, Call.isLocalAction]

theorem getInput_body_localActions {g : Game} {e : Env} {body : List Call}
    (h : (if g.gameStarted then inputStarted g e else some []) = some body) :
    ∀ c ∈ body, c.isLocalAction = true := by
  split at h
  · exact inputStarted_localActions h
  · simp at h
    subst h
    simp

theorem getInput_inputCalls {g g1 : Game} {e : Env} {cs : List Call}
    (h : getInput g e = some (g1, cs)) : ∀ c ∈ cs, c.isInputCall = true := by
  obtain ⟨body, hbody, hcs, -, -⟩ := getInput_eq h
  have hb := getInput_body_localActions hbody
  intro c hc
  rcases hcs with ⟨-, -, -, rfl, -⟩ | ⟨-, rfl, -⟩
  · simp at hc
    rcases hc with rfl | hc | rfl
    · rfl
    · exact isInputCall_of_localAction c (hb c hc)
    · rfl
  · simp at hc
    rcases hc with rfl | hc
    · rfl
    · exact isInputCall_of_localAction c (hb c hc)

theorem getInput_isSome (g : Game) {e : Env} (hb : e.buffersLoaded) :
    ∃ r, getInput g e = some r := by
  unfold getInput
  cases hG : g.gameStarted
  · simp only [Bool.false_eq_true, if_false]
    split <;> exact ⟨_, rfl⟩
  · obtain ⟨cs, hcs⟩ := inputStarted_isSome g hb
    simp only [if_true, hcs]
    split <;> exact ⟨_, rfl⟩

/-! ## One iteration of the loop -/

theorem render_eq {e : Env} {rc : List Call} (h : render e = some rc) :
    rc = [.render, .GraphicsSystem_draw ⟨0, 0⟩ .WOODS (1 / 2), .UnitManager_draw, .flip] := by
  unfold render at h
  split at h
  · simpa using h.symm
  · simp at h

/-- What `tick` returns, in terms of `getInput`, `service` and `render`. -/
theorem tick_eq {g : Game} {t : ℚ} {e : Env} {r : TickResult} (h : tick g t e = some r) :
    ∃ g1 ic, getInput g e = some (g1, ic) ∧ r.game = g1 ∧
      r.packetTimer = (service g1 t e).1 ∧
      r.calls = [.tracker_clearTracker "loop", .tracker_startTracking "loop", .timer_start]
        ++ ic ++ (service g1 t e).2
        ++ [.render, .GraphicsSystem_draw ⟨0, 0⟩ .WOODS (1 / 2), .UnitManager_draw, .flip]
        ++ [.timer_sleepUntilElapsed g1.mTargetTimePerFrame, .tracker_stopTracking "loop"] := by
  unfold tick at h
  split at h
  · simp at h
  · rename_i g1 ic hi
    split at h
    · simp at h
    · rename_i rc hr
      have hrc := render_eq hr
      subst hrc
      simp only [Option.some.injEq] at h
      subst h
      exact ⟨g1, ic, hi, rfl, rfl, rfl⟩

theorem tick_isSome (g : Game) (t : ℚ) {e : Env} (hb : e.buffersLoaded) :
    ∃ r, tick g t e = some r := by
  obtain ⟨⟨g1, ic⟩, hi⟩ := getInput_isSome g hb
  unfold tick
  simp only [hi]
  unfold render
  simp [hb _]

theorem sampleEnv_buffersLoaded (input : InputState) (state : NetworkManagerState) :
    (sampleEnv input state).buffersLoaded :=
  fun _ => rfl

theorem countP_eq_zero_of_inputCalls {p : Call → Bool} {cs : List Call}
    (hp : ∀ c, c.isInputCall = true → p c = false) (h : ∀ c ∈ cs, c.isInputCall = true) :
    cs.countP p = 0 := by
  rw [List.countP_eq_zero]
  intro c hc
  simp [hp c (h c hc)]

theorem isUpdate_of_inputCall (c : Call) (h : c.isInputCall = true) : c.isUpdate = false := by
  cases c <;> simp_all [Call.isInputCall, Call.isUpdate]

theorem isProcessIncoming_of_inputCall (c : Call) (h : c.isInputCall = true) :
    c.isProcessIncoming = false := by
  cases c <;> simp_all [Call.isInputCall, Call.isProcessIncoming]

theorem isSendOutgoing_of_inputCall (c : Call) (h : c.isInputCall = true) :
    c.isSendOutgoing = false := by
  cases c <;> simp_all [Call.isInputCall, Call.isSendOutgoing]

theorem service_delay (g : Game) (t : ℚ) {e : Env} (hD : e.GetState = .NMS_Delay) :
    service g t e = (t, [.ProcessIncomingPackets]) := by
  simp [service, hD]

theorem service_active (g : Game) (t : ℚ) {e : Env} (hA : e.GetState ≠ .NMS_Delay) :
    service g t e =
      if t + g.mTargetTimePerFrame ≥ 500 then
        (0, update g.mTargetTimePerFrame ++ [.ProcessIncomingPackets, .SendOutgoingPackets])
      else (t + g.mTargetTimePerFrame, update g.mTargetTimePerFrame ++ [.ProcessIncomingPackets]) := by
  simp [service, hA]

/-- C2: in an iteration of the loop of `Game::doLoop` whose session state is `NMS_Delay`,
whatever the frame time and the flush timer, `update` is not called, `SendOutgoingPackets`
is not called, `packetTimer` is unchanged and `ProcessIncomingPackets` is called exactly
once; and such an iteration runs to its end when the buffers are loaded. -/
theorem delayed_tick_only_processes_incoming (g : Game) (packetTimer : ℚ) (e : Env)
    (hD : e.GetState = .NMS_Delay) :
    (∀ r, tick g packetTimer e = some r →
      r.calls.countP Call.isUpdate = 0 ∧ r.calls.countP Call.isSendOutgoing = 0 ∧
        r.packetTimer = packetTimer ∧ r.calls.countP Call.isProcessIncoming = 1) ∧
      (e.buffersLoaded → ∃ r, tick g packetTimer e = some r) := by
  refine ⟨?_, fun hb => tick_isSome g packetTimer hb⟩
  intro r hr
  obtain ⟨g1, ic, hi, -, ht, hc⟩ := tick_eq hr
  have hin := getInput_inputCalls hi
  have h1 := countP_eq_zero_of_inputCalls isUpdate_of_inputCall hin
  have h2 := countP_eq_zero_of_inputCalls isSendOutgoing_of_inputCall hin
  have h3 := countP_eq_zero_of_inputCalls isProcessIncoming_of_inputCall hin
  rw [service_delay g1 packetTimer hD] at ht hc
  refine ⟨?_, ?_, ht, ?_⟩
  · rw [hc]
    simp [List.countP_append, h1, List.countP_cons, Call.isUpdate]
  · rw [hc]
    simp [List.countP_append, h2, List.countP_cons, Call.isSendOutgoing]
  · rw [hc]
    simp [List.countP_append, h3, List.countP_cons, Call.isProcessIncoming]

theorem delayed_tick_only_processes_incoming_witness :
    (sampleEnv spaceInput .NMS_Delay).GetState = .NMS_Delay ∧
      ∃ r, tick startedGame 123 (sampleEnv spaceInput .NMS_Delay) = some r ∧
        r.calls.countP Call.isUpdate = 0 ∧ r.calls.countP Call.isSendOutgoing = 0 ∧
        r.packetTimer = 123 ∧ r.calls.countP Call.isProcessIncoming = 1 := by
  obtain ⟨h1, h2⟩ := delayed_tick_only_processes_incoming startedGame 123
    (sampleEnv spaceInput .NMS_Delay) rfl
  obtain ⟨r, hr⟩ := h2 (sampleEnv_buffersLoaded _ _)
  exact ⟨rfl, r, hr, h1 r hr⟩

theorem findIdx_split (p : Call → Bool) (pre post : List Call) (a : Call)
    (hpre : ∀ c ∈ pre, p c = false) (ha : p a = true) :
    (pre ++ a :: post).findIdx p = pre.length := by
  induction pre with
  | nil => simp [List.findIdx_cons, ha]
  | cons b l ih =>
    have hb : p b = false := hpre b (List.mem_cons_self _ _)
    have hl : ∀ c ∈ l, p c = false := fun c hc => hpre c (List.mem_cons_of_mem _ hc)
    simp [List.findIdx_cons, hb, ih hl]

theorem isRender_of_inputCall (c : Call) (h : c.isInputCall = true) : c.isRender = false := by
  cases c <;> simp_all [Call.isInputCall, Call.isRender]

/-- C1, as the code has it: in an iteration of the loop of `Game::doLoop` whose session
state is not `NMS_Delay`, `update`, `ProcessIncomingPackets` and `render` are each called
exactly once, `update` is called before `ProcessIncomingPackets`, and
`ProcessIncomingPackets` before `render`; such an iteration runs to its end when the
buffers are loaded. -/
theorem active_tick_update_before_incoming (g : Game) (packetTimer : ℚ) (e : Env)
    (hA : e.GetState ≠ .NMS_Delay) :
    (∀ r, tick g packetTimer e = some r →
      r.calls.countP Call.isUpdate = 1 ∧ r.calls.countP Call.isProcessIncoming = 1 ∧
        r.calls.countP Call.isRender = 1 ∧
        precedes Call.isUpdate Call.isProcessIncoming r.calls ∧
        precedes Call.isProcessIncoming Call.isRender r.calls) ∧
      (e.buffersLoaded → ∃ r, tick g packetTimer e = some r) := by
  refine ⟨?_, fun hb => tick_isSome g packetTimer hb⟩
  intro r hr
  obtain ⟨g1, ic, hi, -, -, hc⟩ := tick_eq hr
  have hin := getInput_inputCalls hi
  have h1 := countP_eq_zero_of_inputCalls isUpdate_of_inputCall hin
  have h3 := countP_eq_zero_of_inputCalls isProcessIncoming_of_inputCall hin
  have h5 := countP_eq_zero_of_inputCalls isRender_of_inputCall hin
  obtain ⟨rest, hrest, hrest1, hrest3, hrest5⟩ : ∃ rest : List Call,
      (service g1 packetTimer e).2 =
        [.update g1.mTargetTimePerFrame, .UnitManager_update g1.mTargetTimePerFrame,
          .Timing_Update, .ProcessIncomingPackets] ++ rest ∧
      rest.countP Call.isUpdate = 0 ∧ rest.countP Call.isProcessIncoming = 0 ∧
      ∀ c ∈ rest, c.isRender = false := by
    rw [service_active g1 packetTimer hA]
    split
    · exact ⟨[.SendOutgoingPackets], rfl, rfl, rfl, by simp [Call.isRender]⟩
    · exact ⟨[], rfl, rfl, rfl, by simp⟩
  have hrest5c : rest.countP Call.isRender = 0 := by
    rw [List.countP_eq_zero]
    intro c hc1
    simp [hrest5 c hc1]
  rw [hrest] at hc
  have hpre1 : ∀ c ∈ [Call.tracker_clearTracker "loop", .tracker_startTracking "loop",
      .timer_start] ++ ic, c.isUpdate = false := by
    intro c hc1
    simp only [List.mem_append, List.mem_cons, List.mem_singleton, List.not_mem_nil,
      or_false] at hc1
    rcases hc1 with (rfl | rfl | rfl) | hc1
    · rfl
    · rfl
    · rfl
    · exact isUpdate_of_inputCall c (hin c hc1)
  have hpre3 : ∀ c ∈ [Call.tracker_clearTracker "loop", .tracker_startTracking "loop",
      .timer_start] ++ ic ++ [.update g1.mTargetTimePerFrame,
        .UnitManager_update g1.mTargetTimePerFrame, .Timing_Update],
      c.isProcessIncoming = false := by
    intro c hc1
    simp only [List.mem_append, List.mem_cons, List.mem_singleton, List.not_mem_nil,
      or_false] at hc1
    rcases hc1 with ((rfl | rfl | rfl) | hc1) | (rfl | rfl | rfl)
    · rfl
    · rfl
    · rfl
    · exact isProcessIncoming_of_inputCall c (hin c hc1)
    · rfl
    · rfl
    · rfl
  have hpre5 : ∀ c ∈ [Call.tracker_clearTracker "loop", .tracker_startTracking "loop",
      .timer_start] ++ ic ++ [.update g1.mTargetTimePerFrame,
        .UnitManager_update g1.mTargetTimePerFrame, .Timing_Update,
        .ProcessIncomingPackets] ++ rest,
      c.isRender = false := by
    intro c hc1
    simp only [List.mem_append, List.mem_cons, List.mem_singleton, List.not_mem_nil,
      or_false] at hc1
    rcases hc1 with (((rfl | rfl | rfl) | hc1) | (rfl | rfl | rfl | rfl)) | hc1
    · rfl
    · rfl
    · rfl
    · exact isRender_of_inputCall c (hin c hc1)
    · rfl
    · rfl
    · rfl
    · rfl
    · exact hrest5 c hc1
  have e1 := findIdx_split Call.isUpdate _
    ([Call.UnitManager_update g1.mTargetTimePerFrame, .Timing_Update,
      .ProcessIncomingPackets] ++ rest
      ++ [.render, .GraphicsSystem_draw ⟨0, 0⟩ .WOODS (1 / 2), .UnitManager_draw, .flip]
      ++ [.timer_sleepUntilElapsed g1.mTargetTimePerFrame, .tracker_stopTracking "loop"])
    (Call.update g1.mTargetTimePerFrame) hpre1 rfl
  have e3 := findIdx_split Call.isProcessIncoming _
    (rest
      ++ [.render, .GraphicsSystem_draw ⟨0, 0⟩ .WOODS (1 / 2), .UnitManager_draw, .flip]
      ++ [.timer_sleepUntilElapsed g1.mTargetTimePerFrame, .tracker_stopTracking "loop"])
    Call.ProcessIncomingPackets hpre3 rfl
  have e5 := findIdx_split Call.isRender _
    ([Call.GraphicsSystem_draw ⟨0, 0⟩ .WOODS (1 / 2), .UnitManager_draw, .flip]
      ++ [.timer_sleepUntilElapsed g1.mTargetTimePerFrame, .tracker_stopTracking "loop"])
    Call.render hpre5 rfl
  simp only [List.append_assoc, List.cons_append, List.nil_append, List.singleton_append]
    at e1 e3 e5
  refine ⟨?_, ?_, ?_, ?_, ?_⟩
  · rw [hc]
    simp [List.countP_append, h1, hrest1, List.countP_cons, Call.isUpdate]
  · rw [hc]
    simp [List.countP_append, h3, hrest3, List.countP_cons, Call.isProcessIncoming]
  · rw [hc]
    simp [List.countP_append, h5, hrest5c, List.countP_cons, Call.isRender]
  · unfold precedes
    rw [hc]
    simp only [List.append_assoc, List.cons_append, List.nil_append, List.singleton_append]
    rw [e1, e3]
    simp only [List.length_append, List.length_cons, List.length_nil]
    omega
  · unfold precedes
    rw [hc]
    simp only [List.append_assoc, List.cons_append, List.nil_append, List.singleton_append]
    rw [e3, e5]
    simp only [List.length_append, List.length_cons, List.length_nil]
    omega

theorem active_tick_update_before_incoming_witness :
    (sampleEnv noInput .NMS_Active).GetState ≠ .NMS_Delay ∧
      ∃ r, tick startedGame 0 (sampleEnv noInput .NMS_Active) = some r ∧
        r.calls.countP Call.isUpdate = 1 ∧ r.calls.countP Call.isProcessIncoming = 1 ∧
        r.calls.countP Call.isRender = 1 ∧
        precedes Call.isUpdate Call.isProcessIncoming r.calls ∧
        precedes Call.isProcessIncoming Call.isRender r.calls := by
  obtain ⟨h1, h2⟩ := active_tick_update_before_incoming startedGame 0
    (sampleEnv noInput .NMS_Active) (by decide)
  obtain ⟨r, hr⟩ := h2 (sampleEnv_buffersLoaded _ _)
  exact ⟨by decide, r, hr, h1 r hr⟩

/-- C1, as the claim has it, fails: on a started game with no key pressed and the session
state `NMS_Active`, the iteration calls `update` and only then `ProcessIncomingPackets`, so
`ProcessIncomingPackets` does not precede `update`. -/
theorem active_tick_incoming_not_before_update :
    (sampleEnv noInput .NMS_Active).GetState ≠ .NMS_Delay ∧
      ∃ r, tick startedGame 0 (sampleEnv noInput .NMS_Active) = some r ∧
        r.calls =
          [.tracker_clearTracker "loop", .tracker_startTracking "loop", .timer_start,
            .getInput,
            .update (167 / 10), .UnitManager_update (167 / 10), .Timing_Update,
            .ProcessIncomingPackets,
            .render, .GraphicsSystem_draw ⟨0, 0⟩ .WOODS (1 / 2), .UnitManager_draw, .flip,
            .timer_sleepUntilElapsed (167 / 10), .tracker_stopTracking "loop"] ∧
        ¬ precedes Call.isProcessIncoming Call.isUpdate r.calls := by
  refine ⟨by decide, ⟨startedGame, 167 / 10, _⟩, ?_, rfl, by decide⟩
  simp [tick, getInput, inputStarted, inputEnter, inputSpace, inputLeft, inputRight,
    inputOne, inputTwo, render, service, update, startedGame, sampleEnv, noInput]
  norm_num

theorem isTryStartGame_of_localAction (c : Call) (h : c.isLocalAction = true) :
    c.isTryStartGame = false := by
  cases c <;> simp_all [Call.isLocalAction, Call.isTryStartGame]

theorem countP_eq_zero_of_localActions {p : Call → Bool} {cs : List Call}
    (hp : ∀ c, c.isLocalAction = true → p c = false) (h : ∀ c ∈ cs, c.isLocalAction = true) :
    cs.countP p = 0 := by
  rw [List.countP_eq_zero]
  intro c hc
  simp [hp c (h c hc)]

/-- C7: a call of `Game::getInput` on a node whose `IsMasterPeer()` is false makes no call
of `TryStartGame` and leaves `gameStarted` unchanged, whatever the keys, the buttons and
`gameStarted`; `TryStartGame` is called exactly when the node is master, the start key is
pressed and `gameStarted` is false; and `getInput` returns when the buffers are loaded. -/
theorem getInput_start_is_master_only (g : Game) (e : Env) :
    (∀ g1 cs, getInput g e = some (g1, cs) →
      (e.IsMasterPeer = false →
        cs.countP Call.isTryStartGame = 0 ∧ g1.gameStarted = g.gameStarted) ∧
      (cs.countP Call.isTryStartGame ≠ 0 ↔
        e.IsMasterPeer = true ∧ e.input.S_KEY = true ∧ g.gameStarted = false)) ∧
      (e.buffersLoaded → ∃ r, getInput g e = some r) := by
  refine ⟨?_, fun hb => getInput_isSome g hb⟩
  intro g1 cs h
  obtain ⟨body, hbody, hcs, -, -⟩ := getInput_eq h
  have h0 := countP_eq_zero_of_localActions isTryStartGame_of_localAction
    (getInput_body_localActions hbody)
  rcases hcs with ⟨hS, hG, hM, rfl, -⟩ | ⟨hno, rfl, hg1⟩
  · simp [List.countP_cons, List.countP_append, h0, Call.isTryStartGame, hS, hG, hM]
  · have hc : List.countP Call.isTryStartGame (Call.getInput :: body) = 0 := by
      simp [List.countP_cons, h0, Call.isTryStartGame]
    refine ⟨fun _ => ⟨hc, hg1⟩, ?_⟩
    rw [hc]
    simp only [ne_eq, not_true_eq_false, false_iff, not_and]
    intro hM hS hG
    rcases hno with h | h | h <;> simp_all

theorem getInput_start_is_master_only_witness :
    (sampleEnv startInput .NMS_Delay).IsMasterPeer = false ∧
      (sampleEnv startInput .NMS_Delay).input.S_KEY = true ∧
      ∃ g1 cs, getInput waitingGame (sampleEnv startInput .NMS_Delay) = some (g1, cs) ∧
        cs.countP Call.isTryStartGame = 0 ∧ g1.gameStarted = waitingGame.gameStarted := by
  obtain ⟨h1, h2⟩ := getInput_start_is_master_only waitingGame
    (sampleEnv startInput .NMS_Delay)
  obtain ⟨⟨g1, cs⟩, hr⟩ := h2 (sampleEnv_buffersLoaded _ _)
  exact ⟨rfl, rfl, g1, cs, hr, (h1 g1 cs hr).1 rfl⟩

/-- C9, as the code has it: `Game::getInput` gates local actions on `gameStarted`, not on
the session state.  In an iteration of the loop of `Game::doLoop` whose session state is
`NMS_Delay` and in which `gameStarted` is false, whatever the input, `getInput` returns
having made no `addAction` call and no unit creation, deletion or animation toggle, and
neither does the rest of the iteration. -/
theorem delayed_tick_not_started_no_local_action (g : Game) (packetTimer : ℚ) (e : Env)
    (hD : e.GetState = .NMS_Delay) (hG : g.gameStarted = false) :
    (∃ g1 cs, getInput g e = some (g1, cs) ∧
      cs.countP Call.isAddAction = 0 ∧ cs.countP Call.isUnitMutation = 0) ∧
      (∀ r, tick g packetTimer e = some r →
        r.calls.countP Call.isAddAction = 0 ∧ r.calls.countP Call.isUnitMutation = 0) := by
  have key : ∀ g1 cs, getInput g e = some (g1, cs) →
      cs.countP Call.isAddAction = 0 ∧ cs.countP Call.isUnitMutation = 0 := by
    intro g1 cs h
    obtain ⟨body, hbody, hcs, -, -⟩ := getInput_eq h
    simp only [hG, Bool.false_eq_true, if_false, Option.some.injEq] at hbody
    subst hbody
    rcases hcs with ⟨-, -, -, rfl, -⟩ | ⟨-, rfl, -⟩ <;>
      simp [List.countP_cons, Call.isAddAction, Call.isUnitMutation]
  constructor
  · have hsome : ∃ r, getInput g e = some r := by
      unfold getInput
      simp only [hG, Bool.false_eq_true, if_false]
      split <;> exact ⟨_, rfl⟩
    obtain ⟨⟨g1, cs⟩, h⟩ := hsome
    exact ⟨g1, cs, h, key g1 cs h⟩
  · intro r hr
    obtain ⟨g1, ic, hi, -, -, hc⟩ := tick_eq hr
    obtain ⟨k1, k2⟩ := key g1 ic hi
    rw [service_delay g1 packetTimer hD] at hc
    rw [hc]
    constructor
    · simp [List.countP_append, k1, List.countP_cons, Call.isAddAction]
    · simp [List.countP_append, k2, List.countP_cons, Call.isUnitMutation]

theorem delayed_tick_not_started_no_local_action_witness :
    (sampleEnv spaceInput .NMS_Delay).GetState = .NMS_Delay ∧
      waitingGame.gameStarted = false ∧
      (∃ g1 cs, getInput waitingGame (sampleEnv spaceInput .NMS_Delay) = some (g1, cs) ∧
        cs.countP Call.isAddAction = 0 ∧ cs.countP Call.isUnitMutation = 0) ∧
      ∃ r, tick waitingGame 0 (sampleEnv spaceInput .NMS_Delay) = some r ∧
        r.calls.countP Call.isAddAction = 0 ∧ r.calls.countP Call.isUnitMutation = 0 := by
  obtain ⟨h1, h2⟩ := delayed_tick_not_started_no_local_action waitingGame 0
    (sampleEnv spaceInput .NMS_Delay) rfl rfl
  obtain ⟨r, hr⟩ := tick_isSome waitingGame 0 (sampleEnv_buffersLoaded spaceInput .NMS_Delay)
  exact ⟨rfl, rfl, h1, r, hr, h2 r hr⟩

/-- C9, as the claim has it, fails: on a started game in session state `NMS_Delay` with the
space key pressed, `getInput` toggles the pause state of all animations and calls
`addAction(ToggleAnimAll, (0, 0))`. -/
theorem delayed_tick_started_makes_local_action :
    (sampleEnv spaceInput .NMS_Delay).GetState = .NMS_Delay ∧
      getInput startedGame (sampleEnv spaceInput .NMS_Delay) =
        some (startedGame,
          [.getInput, .togglePauseStateForAllAnimations,
            .addAction .ToggleAnimAll ⟨0, 0⟩]) ∧
      ∃ r, tick startedGame 0 (sampleEnv spaceInput .NMS_Delay) = some r ∧
        r.calls =
          [.tracker_clearTracker "loop", .tracker_startTracking "loop", .timer_start,
            .getInput, .togglePauseStateForAllAnimations,
            .addAction .ToggleAnimAll ⟨0, 0⟩,
            .ProcessIncomingPackets,
            .render, .GraphicsSystem_draw ⟨0, 0⟩ .WOODS (1 / 2), .UnitManager_draw, .flip,
            .timer_sleepUntilElapsed (167 / 10), .tracker_stopTracking "loop"] ∧
        r.calls.countP Call.isAddAction = 1 ∧ r.calls.countP Call.isUnitMutation = 1 := by
  refine ⟨rfl, ?_, ⟨startedGame, 0, _⟩, ?_, rfl, by decide, by decide⟩
  · simp [getInput, inputStarted, inputEnter, inputSpace, inputLeft, inputRight,
      inputOne, inputTwo, startedGame, sampleEnv, spaceInput]
  · simp [tick, getInput, inputStarted, inputEnter, inputSpace, inputLeft, inputRight,
      inputOne, inputTwo, render, service, startedGame, sampleEnv, spaceInput]

/-! ## Local application and `HandleAction` -/

theorem addedActions_append (xs ys : List Call) :
    addedActions (xs ++ ys) = addedActions xs ++ addedActions ys := by
  induction xs with
  | nil => rfl
  | cons c l ih => cases c <;> simp [addedActions, ih]

theorem localReplay_append (g : Game) (e : Env) {xs ys : List (ActionTypes × Vector2D)}
    {a b : List Call} (ha : localReplay g e xs = some a) (hb : localReplay g e ys = some b) :
    localReplay g e (xs ++ ys) = some (a ++ b) := by
  induction xs generalizing a with
  | nil =>
    simp only [localReplay, Option.some.injEq] at ha
    subst ha
    simpa using hb
  | cons x l ih =>
    obtain ⟨type, pos⟩ := x
    simp only [localReplay, List.cons_append] at ha ⊢
    split at ha
    · simp at ha
    · rename_i hc hh
      split at ha
      · simp at ha
      · rename_i rc hr
        simp only [Option.some.injEq] at ha
        subst ha
        simp [hh, ih hr]

theorem replaysLocally_append {g : Game} {e : Env} {xs ys : List Call}
    (hx : ReplaysLocally g e xs) (hy : ReplaysLocally g e ys) :
    ReplaysLocally g e (xs ++ ys) := by
  unfold ReplaysLocally at *
  rw [addedActions_append]
  exact localReplay_append g e hx hy

theorem inputEnter_replays (g : Game) (e : Env) : ReplaysLocally g e (inputEnter e) := by
  unfold ReplaysLocally inputEnter
  split
  · split
    · rename_i pUnit hu
      simp [addedActions, localReplay, HandleAction, hu]
    · simp [addedActions, localReplay]
  · simp [addedActions, localReplay]

theorem inputSpace_replays (g : Game) (e : Env) : ReplaysLocally g e (inputSpace e) := by
  unfold ReplaysLocally inputSpace
  split <;> simp [addedActions, localReplay, HandleAction]

theorem inputRight_replays (g : Game) (e : Env) : ReplaysLocally g e (inputRight e) := by
  unfold ReplaysLocally inputRight
  split <;> simp [addedActions, localReplay, HandleAction]

theorem inputLeft_replays {g : Game} {e : Env} {cs : List Call}
    (h : inputLeft g e = some cs) : ReplaysLocally g e cs := by
  unfold inputLeft at h
  unfold ReplaysLocally
  split at h
  · split at h
    · rename_i cs1 h1
      obtain ⟨a, b, rfl⟩ := createUnit_eq h1
      simp only [Option.some.injEq] at h
      subst h
      simp [addedActions, localReplay, HandleAction, h1]
    · simp at h
  · simp only [Option.some.injEq] at h
    subst h
    simp [addedActions, localReplay]

theorem inputOne_replays {g : Game} {e : Env} {cs : List Call}
    (h : inputOne g e = some cs) : ReplaysLocally g e cs := by
  unfold inputOne at h
  unfold ReplaysLocally
  split at h
  · split at h
    · rename_i cs1 h1
      obtain ⟨a, b, rfl⟩ := createUnit_eq h1
      simp only [Option.some.injEq] at h
      subst h
      simp [addedActions, localReplay, HandleAction, h1]
    · simp at h
  · simp only [Option.some.injEq] at h
    subst h
    simp [addedActions, localReplay]

theorem inputTwo_replays {g : Game} {e : Env} {cs : List Call}
    (h : inputTwo g e = some cs) : ReplaysLocally g e cs := by
  unfold inputTwo at h
  unfold ReplaysLocally
  split at h
  · split at h
    · rename_i cs1 h1
      obtain ⟨a, b, rfl⟩ := createUnit_eq h1
      simp only [Option.some.injEq] at h
      subst h
      simp [addedActions, localReplay, HandleAction, h1]
    · simp at h
  · simp only [Option.some.injEq] at h
    subst h
    simp [addedActions, localReplay]

theorem inputStarted_replays {g : Game} {e : Env} {cs : List Call}
    (h : inputStarted g e = some cs) : ReplaysLocally g e cs := by
  obtain ⟨left, one, two, hl, ho, ht, rfl⟩ := inputStarted_eq h
  have h2 := replaysLocally_append (inputEnter_replays g e) (inputSpace_replays g e)
  have h3 := replaysLocally_append h2 (inputLeft_replays hl)
  have h4 := replaysLocally_append h3 (inputRight_replays g e)
  have h5 := replaysLocally_append h4 (inputOne_replays ho)
  exact replaysLocally_append h5 (inputTwo_replays ht)

theorem HandleAction_rand_count {g : Game} {e : Env} {type : ActionTypes} {pos : Vector2D}
    {hc : List Call} (h : HandleAction g e type pos = some hc) :
    hc.countP Call.isRand = if type = .CreateUnitRand then 2 else 0 := by
  unfold HandleAction at h
  cases type <;> simp only at h
  · simp at h; subst h; rfl
  · split at h <;> simp at h <;> subst h <;> rfl
  · obtain ⟨a, b, rfl⟩ := createUnit_eq h; rfl
  · split at h
    · rename_i cs h1
      obtain ⟨a, b, rfl⟩ := createUnit_eq h1
      simp at h; subst h; rfl
    · simp at h
  · obtain ⟨a, b, rfl⟩ := createUnit_eq h; rfl
  · simp at h; subst h; rfl

theorem HandleAction_isSome (g : Game) {e : Env} (hb : e.buffersLoaded) (type : ActionTypes)
    (pos : Vector2D) : ∃ hc, HandleAction g e type pos = some hc := by
  unfold HandleAction
  cases type <;> simp only
  · exact ⟨_, rfl⟩
  · split <;> exact ⟨_, rfl⟩
  · exact createUnit_isSome g hb pos _
  · obtain ⟨cs, h⟩ := createUnit_isSome g hb pos .RAND_SPAWN
    rw [h]
    exact ⟨_, rfl⟩
  · exact createUnit_isSome g hb pos _
  · exact ⟨_, rfl⟩

theorem HandleAction_no_addAction {g : Game} {e : Env} {type : ActionTypes} {pos : Vector2D}
    {hc : List Call} (h : HandleAction g e type pos = some hc) :
    ∀ c ∈ hc, c.isAddAction = false := by
  unfold HandleAction at h
  cases type <;> simp only at h
  · simp at h; subst h; simp [Call.isAddAction]
  · split at h <;> simp at h <;> subst h <;> simp [Call.isAddAction]
  · obtain ⟨a, b, rfl⟩ := createUnit_eq h; simp [Call.isAddAction]
  · split at h
    · rename_i cs h1
      obtain ⟨a, b, rfl⟩ := createUnit_eq h1
      simp at h; subst h; simp [Call.isAddAction]
    · simp at h
  · obtain ⟨a, b, rfl⟩ := createUnit_eq h; simp [Call.isAddAction]
  · simp at h; subst h; simp [Call.isAddAction]

theorem HandleAction_mutates {g : Game} {e : Env} {type : ActionTypes} {pos : Vector2D}
    {hc : List Call} (h : HandleAction g e type pos = some hc) :
    1 ≤ hc.countP Call.isUnitMutation ∨
      (type = .ToggleAnimSingle ∧ e.getLastUnitCreated = none ∧ hc = []) := by
  unfold HandleAction at h
  cases type <;> simp only at h
  · simp at h; subst h; simp [Call.isUnitMutation]
  · split at h
    · simp at h; subst h; simp [Call.isUnitMutation]
    · rename_i hn
      simp at h; subst h
      exact Or.inr ⟨rfl, hn, rfl⟩
  · obtain ⟨a, b, rfl⟩ := createUnit_eq h; simp [Call.isUnitMutation]
  · split at h
    · rename_i cs h1
      obtain ⟨a, b, rfl⟩ := createUnit_eq h1
      simp at h; subst h; simp [Call.isUnitMutation]
    · simp at h
  · obtain ⟨a, b, rfl⟩ := createUnit_eq h; simp [Call.isUnitMutation]
  · simp at h; subst h; simp [Call.isUnitMutation]

/-- In a replay, the calls just before each `addAction(type, pos)` are the calls of
`HandleAction(type, pos)`. -/
theorem localReplay_before_addAction (g : Game) (e : Env) :
    ∀ (acts : List (ActionTypes × Vector2D)) (body : List Call),
      localReplay g e acts = some body →
      ∀ pre post type pos, body = pre ++ Call.addAction type pos :: post →
        ∃ hc pre1, HandleAction g e type pos = some hc ∧ pre = pre1 ++ hc := by
  intro acts
  induction acts with
  | nil =>
    intro body h pre post type pos hb
    simp only [localReplay, Option.some.injEq] at h
    subst h
    simp at hb
  | cons x l ih =>
    intro body h pre post type pos hb
    obtain ⟨type0, pos0⟩ := x
    simp only [localReplay] at h
    split at h
    · simp at h
    · rename_i hc hh
      split at h
      · simp at h
      · rename_i rc hr
        simp only [Option.some.injEq] at h
        subst h
        have hno := HandleAction_no_addAction hh
        simp only [List.append_assoc, List.singleton_append] at hb
        rcases List.append_eq_append_iff.mp hb with ⟨m, hm1, hm2⟩ | ⟨m, hm1, hm2⟩
        · -- pre = hc ++ m
          cases m with
          | nil =>
            simp only [List.nil_append, List.cons.injEq, Call.addAction.injEq] at hm2
            obtain ⟨⟨rfl, rfl⟩, -⟩ := hm2
            exact ⟨hc, [], hh, by simpa using hm1⟩
          | cons c m1 =>
            simp only [List.cons_append, List.cons.injEq] at hm2
            obtain ⟨rfl, hm3⟩ := hm2
            obtain ⟨hc1, pre1, h1, h2⟩ := ih rc hr m1 post type pos hm3
            refine ⟨hc1, hc ++ Call.addAction type0 pos0 :: pre1, h1, ?_⟩
            rw [hm1, h2]
            simp
        · -- hc = pre ++ m, and the addAction lies in hc: impossible
          cases m with
          | nil =>
            simp only [List.nil_append, List.cons.injEq, Call.addAction.injEq] at hm2
            obtain ⟨⟨rfl, rfl⟩, -⟩ := hm2
            exact ⟨hc, [], hh, by simpa using hm1.symm⟩
          | cons c m1 =>
            simp only [List.cons_append, List.cons.injEq] at hm2
            obtain ⟨rfl, -⟩ := hm2
            have := hno (Call.addAction type pos) (by rw [hm1]; simp)
            simp [Call.isAddAction] at this

/-- C8: the calls of `Game::getInput` are its entry, then for each action it enqueues, in
order, exactly the calls `Game::HandleAction` makes for that action under the same answers
of the unit manager and the buffers, followed by the `addAction` call, and last the start
call if any.  So just before each `addAction(type, pos)` come the calls of
`HandleAction(type, pos)`.  `HandleAction` draws `rand()` twice for `CreateUnitRand` and
never otherwise, and mutates the units for every action type (but for `ToggleAnimSingle`
with no unit created).  Both return when the buffers are loaded. -/
theorem getInput_applies_what_HandleAction_applies (g : Game) (e : Env) :
    (∀ g1 cs, getInput g e = some (g1, cs) →
      (∃ body tail, cs = .getInput :: body ++ tail ∧ (tail = [] ∨ tail = [.TryStartGame]) ∧
        localReplay g e (addedActions cs) = some body) ∧
      (∀ pre post type pos, cs = pre ++ Call.addAction type pos :: post →
        ∃ hc pre1, HandleAction g e type pos = some hc ∧ pre = pre1 ++ hc)) ∧
      (∀ type pos hc, HandleAction g e type pos = some hc →
        (hc.countP Call.isRand = if type = .CreateUnitRand then 2 else 0) ∧
        (1 ≤ hc.countP Call.isUnitMutation ∨
          (type = .ToggleAnimSingle ∧ e.getLastUnitCreated = none ∧ hc = []))) ∧
      (e.buffersLoaded →
        (∃ r, getInput g e = some r) ∧ ∀ type pos, ∃ hc, HandleAction g e type pos = some hc) := by
  refine ⟨?_, fun type pos hc h => ⟨HandleAction_rand_count h, HandleAction_mutates h⟩,
    fun hb => ⟨getInput_isSome g hb, fun type pos => HandleAction_isSome g hb type pos⟩⟩
  intro g1 cs h
  obtain ⟨body, hbody, hcs, -, -⟩ := getInput_eq h
  have hrep : ReplaysLocally g e body := by
    split at hbody
    · exact inputStarted_replays hbody
    · simp only [Option.some.injEq] at hbody
      subst hbody
      rfl
  unfold ReplaysLocally at hrep
  have hadd : addedActions cs = addedActions body := by
    rcases hcs with ⟨-, -, -, rfl, -⟩ | ⟨-, rfl, -⟩
    · simp [addedActions, addedActions_append]
    · simp [addedActions]
  have hstruct : ∃ tail, cs = .getInput :: body ++ tail ∧ (tail = [] ∨ tail = [.TryStartGame]) := by
    rcases hcs with ⟨-, -, -, rfl, -⟩ | ⟨-, rfl, -⟩
    · exact ⟨[.TryStartGame], rfl, Or.inr rfl⟩
    · exact ⟨[], by simp, Or.inl rfl⟩
  obtain ⟨tail, hcs1, htail⟩ := hstruct
  refine ⟨⟨body, tail, hcs1, htail, by rw [hadd]; exact hrep⟩, ?_⟩
  intro pre post type pos hsplit
  -- the addAction lies in the body
  rw [hcs1] at hsplit
  cases pre with
  | nil => simp at hsplit
  | cons c pre0 =>
    simp only [List.cons_append, List.cons.injEq] at hsplit
    obtain ⟨rfl, hsplit⟩ := hsplit
    rcases List.append_eq_append_iff.mp hsplit with ⟨m, hm1, hm2⟩ | ⟨m, hm1, hm2⟩
    · -- pre0 = body ++ m: the addAction would lie in the tail
      rcases htail with rfl | rfl
      · simp at hm2
      · cases m with
        | nil => simp at hm2
        | cons c1 m1 =>
          simp only [List.cons_append, List.cons.injEq] at hm2
          obtain ⟨-, hm3⟩ := hm2
          simp at hm3
    · cases m with
      | nil =>
        rcases htail with rfl | rfl
        · simp at hm2
        · simp at hm2
      | cons c1 m1 =>
        simp only [List.cons_append, List.cons.injEq] at hm2
        obtain ⟨rfl, -⟩ := hm2
        obtain ⟨hc, pre1, h1, h2⟩ :=
          localReplay_before_addAction g e _ body hrep pre0 m1 type pos hm1
        exact ⟨hc, Call.getInput :: pre1, h1, by rw [h2]; simp⟩

/-! ## Start-up -/

theorem cleanup_calls (g : Game) :
    (cleanup g).2.countP Call.isInitAsMasterPeer = 0 ∧
      (cleanup g).2.countP Call.isInitAsPeer = 0 ∧
      (cleanup g).2.countP Call.isManagerCreation = 0 ∧ (cleanup g).1.mIsInitted = false := by
  unfold cleanup
  split <;> exact ⟨rfl, rfl, rfl, rfl⟩

/-- The calls of `init` up to the creation of the network manager. -/
theorem init_prefix_calls (g : Game) :
    ∃ pre : List Call, pre = (if g.mIsInitted then cleanup g else (g, [])).2 ++
        [.SocketUtil_StaticInit, .new_NetworkManager] ∧
      pre.countP Call.isInitAsMasterPeer = 0 ∧ pre.countP Call.isInitAsPeer = 0 ∧
      pre.countP Call.isManagerCreation = 0 ∧
      (if g.mIsInitted then cleanup g else (g, [])).1.mIsInitted = false := by
  refine ⟨_, rfl, ?_⟩
  obtain ⟨h1, h2, h3, h4⟩ := cleanup_calls g
  cases hI : g.mIsInitted
  · simp [List.countP_cons, Call.isInitAsMasterPeer, Call.isInitAsPeer,
      Call.isManagerCreation, hI]
  · simp [List.countP_append, List.countP_cons, Call.isInitAsMasterPeer, Call.isInitAsPeer,
      Call.isManagerCreation, h1, h2, h3, h4]

theorem initRest_calls (g : Game) (width height : Nat) (dt : ℚ) :
    (initRest g width height dt).2.countP Call.isInitAsMasterPeer = 0 ∧
      (initRest g width height dt).2.countP Call.isInitAsPeer = 0 := by
  constructor <;> rfl

/-- The three ways `init` ends, by the destination it goes on with. -/
theorem init_cases (g : Game) (ie : InitEnv) (width height : Nat) (dt : ℚ) :
    ∃ (pre : List Call) (g1 : Game),
      pre.countP Call.isInitAsMasterPeer = 0 ∧ pre.countP Call.isInitAsPeer = 0 ∧
      pre.countP Call.isManagerCreation = 0 ∧ g1.mIsInitted = false ∧
      (g1.mpUnitManager = (!g.mIsInitted && g.mpUnitManager) ∧
        g1.mpGraphicsBufferManager = (!g.mIsInitted && g.mpGraphicsBufferManager) ∧
        g1.mpMemoryManager = (!g.mIsInitted && g.mpMemoryManager)) ∧
      (':' ∉ (commandLine ie.arg1 ie.arg2).1.toList →
        (stoi (commandLine ie.arg1 ie.arg2).1 = none → init g ie width height dt = none) ∧
        ∀ port, stoi (commandLine ie.arg1 ie.arg2).1 = some port →
          init g ie width height dt =
            some (true, (initRest g1 width height dt).1,
              pre ++ [.InitAsMasterPeer port (commandLine ie.arg1 ie.arg2).2]
                ++ (initRest g1 width height dt).2)) ∧
      (':' ∈ (commandLine ie.arg1 ie.arg2).1.toList →
        (ie.CreateIPv4FromString (commandLine ie.arg1 ie.arg2).1 = none →
          init g ie width height dt =
            some (false, g1,
              pre ++ [.LOG "ERROR: Unable to create target address from destination."])) ∧
        ∀ a, ie.CreateIPv4FromString (commandLine ie.arg1 ie.arg2).1 = some a →
          init g ie width height dt =
            some (true, (initRest g1 width height dt).1,
              pre ++ [.InitAsPeer a (commandLine ie.arg1 ie.arg2).2]
                ++ (initRest g1 width height dt).2)) := by
  obtain ⟨pre, hpre, h1, h2, h3, h4⟩ := init_prefix_calls g
  refine ⟨pre, { (if g.mIsInitted then cleanup g else (g, [])).1 with mpNetworkManager := true },
    h1, h2, h3, h4, ?_, ?_, ?_⟩
  · unfold cleanup
    cases hI : g.mIsInitted <;> simp
  · intro hc
    constructor
    · intro hs
      unfold init
      simp only [hc, not_false_eq_true, if_true, hs]
    · intro port hs
      unfold init
      simp only [hc, not_false_eq_true, if_true, hs, hpre]
  · intro hc
    constructor
    · intro hr
      unfold init
      simp only [hc, not_true_eq_false, if_false, hr, hpre]
    · intro a hr
      unfold init
      simp only [hc, not_true_eq_false, if_false, hr, hpre]

theorem isDigit_toNat {c : Char} (h : c.isDigit = true) : 48 ≤ c.toNat ∧ c.toNat ≤ 57 := by
  simp only [Char.isDigit, Bool.and_eq_true, decide_eq_true_eq] at h
  obtain ⟨h1, h2⟩ := h
  rw [ge_iff_le, UInt32.le_def] at h1
  rw [UInt32.le_def] at h2
  exact ⟨h1, h2⟩

theorem isDigit_not_special {c : Char} (h : c.isDigit = true) :
    isSpace c = false ∧ c ≠ '-' ∧ c ≠ '+' ∧ c ≠ ':' := by
  obtain ⟨h1, h2⟩ := isDigit_toNat h
  refine ⟨?_, ?_, ?_, ?_⟩
  · unfold isSpace
    simp
    omega
  · rintro rfl
    simp at h
  · rintro rfl
    simp at h
  · rintro rfl
    simp at h

theorem digitsValue_foldl_nonneg (ds : List Char) :
    ∀ acc : Int, 0 ≤ acc →
      0 ≤ ds.foldl (fun acc c => acc * 10 + ((c.toNat - 48 : Nat) : Int)) acc := by
  induction ds with
  | nil => intro acc h; simpa using h
  | cons c l ih =>
    intro acc h
    simp only [List.foldl_cons]
    apply ih
    positivity

/-- On a bare decimal port `stoi` returns its value, and there is no colon in it. -/
theorem stoi_of_barePort {s : String} {p : Int} (h : IsBarePort s p) :
    stoi s = some p ∧ ':' ∉ s.toList := by
  obtain ⟨hne, hdig, hval, hle⟩ := h
  have hcolon : ':' ∉ s.toList := by
    intro hmem
    exact (isDigit_not_special (hdig _ hmem)).2.2.2 rfl
  refine ⟨?_, hcolon⟩
  unfold stoi
  cases hl : s.toList with
  | nil => exact absurd hl hne
  | cons c cs =>
    rw [hl] at hdig hval
    have hc := hdig c (List.mem_cons_self _ _)
    obtain ⟨s1, s2, s3, -⟩ := isDigit_not_special hc
    have htake : (c :: cs).takeWhile Char.isDigit = c :: cs := by
      rw [List.takeWhile_eq_self_iff]
      exact hdig
    have hnn : 0 ≤ digitsValue (c :: cs) := digitsValue_foldl_nonneg _ 0 (le_refl 0)
    simp [List.dropWhile_cons, s1, s2, s3, htake, hval]
    rw [hval] at hnn
    omega

/-- C4: with a non-empty destination and a non-empty name, `Game::init` on a destination
that is a bare decimal port `p` (more generally: without a colon, and read by `stoi` as
`p`) returns true having called `InitAsMasterPeer(p, name)` once and `InitAsPeer` never; on
a destination with a colon that resolves to the address `a` it returns true having called
`InitAsPeer(a, name)` once and `InitAsMasterPeer` never.  Every `init` that returns true
has called exactly one of the two. -/
theorem init_selects_role (g : Game) (ie : InitEnv) (width height : Nat) (dt : ℚ)
    (hd : ie.arg1 ≠ "") (hn : ie.arg2 ≠ "") :
    (∀ p, IsBarePort ie.arg1 p →
      ∃ g1 cs, init g ie width height dt = some (true, g1, cs) ∧
        Call.InitAsMasterPeer p ie.arg2 ∈ cs ∧ cs.countP Call.isInitAsMasterPeer = 1 ∧
        cs.countP Call.isInitAsPeer = 0) ∧
      (':' ∉ ie.arg1.toList → ∀ p, stoi ie.arg1 = some p →
        ∃ g1 cs, init g ie width height dt = some (true, g1, cs) ∧
          Call.InitAsMasterPeer p ie.arg2 ∈ cs ∧ cs.countP Call.isInitAsMasterPeer = 1 ∧
          cs.countP Call.isInitAsPeer = 0) ∧
      (':' ∈ ie.arg1.toList → ∀ a, ie.CreateIPv4FromString ie.arg1 = some a →
        ∃ g1 cs, init g ie width height dt = some (true, g1, cs) ∧
          Call.InitAsPeer a ie.arg2 ∈ cs ∧ cs.countP Call.isInitAsPeer = 1 ∧
          cs.countP Call.isInitAsMasterPeer = 0) ∧
      (∀ g1 cs, init g ie width height dt = some (true, g1, cs) →
        cs.countP Call.isInitAsMasterPeer + cs.countP Call.isInitAsPeer = 1) := by
  have hcl : commandLine ie.arg1 ie.arg2 = (ie.arg1, ie.arg2) := by
    simp [commandLine, hd, hn]
  obtain ⟨pre, g0, h1, h2, -, -, -, hM, hP⟩ := init_cases g ie width height dt
  rw [hcl] at hM hP
  simp only at hM hP
  obtain ⟨r1, r2⟩ := initRest_calls g0 width height dt
  have master : ':' ∉ ie.arg1.toList → ∀ p, stoi ie.arg1 = some p →
      ∃ g1 cs, init g ie width height dt = some (true, g1, cs) ∧
        Call.InitAsMasterPeer p ie.arg2 ∈ cs ∧ cs.countP Call.isInitAsMasterPeer = 1 ∧
        cs.countP Call.isInitAsPeer = 0 := by
    intro hc p hs
    refine ⟨_, _, (hM hc).2 p hs, by simp, ?_, ?_⟩
    · simp [List.countP_append, List.countP_cons, h1, r1, Call.isInitAsMasterPeer]
    · simp [List.countP_append, List.countP_cons, h2, r2, Call.isInitAsPeer]
  refine ⟨?_, master, ?_, ?_⟩
  · intro p hp
    obtain ⟨hs, hc⟩ := stoi_of_barePort hp
    exact master hc p hs
  · intro hc a hr
    refine ⟨_, _, (hP hc).2 a hr, by simp, ?_, ?_⟩
    · simp [List.countP_append, List.countP_cons, h2, r2, Call.isInitAsPeer]
    · simp [List.countP_append, List.countP_cons, h1, r1, Call.isInitAsMasterPeer]
  · intro g1 cs h
    by_cases hc : ':' ∈ ie.arg1.toList
    · cases hr : ie.CreateIPv4FromString ie.arg1 with
      | none =>
        rw [(hP hc).1 hr] at h
        simp at h
      | some a =>
        rw [(hP hc).2 a hr] at h
        simp only [Option.some.injEq, Prod.mk.injEq, true_and] at h
        obtain ⟨-, rfl⟩ := h
        simp [List.countP_append, List.countP_cons, h1, h2, r1, r2, Call.isInitAsMasterPeer,
          Call.isInitAsPeer]
    · cases hs : stoi ie.arg1 with
      | none =>
        rw [(hM hc).1 hs] at h
        simp at h
      | some p =>
        rw [(hM hc).2 p hs] at h
        simp only [Option.some.injEq, Prod.mk.injEq, true_and] at h
        obtain ⟨-, rfl⟩ := h
        simp [List.countP_append, List.countP_cons, h1, h2, r1, r2, Call.isInitAsMasterPeer,
          Call.isInitAsPeer]

theorem init_selects_role_witness :
    (("127.0.0.1:8000" : String) ≠ "" ∧ ("Guest" : String) ≠ "" ∧
      ∃ g1 cs, init freshGame ⟨"127.0.0.1:8000", "Guest", localResolver⟩ 800 600 (167 / 10) =
          some (true, g1, cs) ∧
        Call.InitAsPeer ⟨2130706433, 8000⟩ "Guest" ∈ cs ∧ cs.countP Call.isInitAsPeer = 1 ∧
        cs.countP Call.isInitAsMasterPeer = 0) ∧
      (("9000" : String) ≠ "" ∧ ("Host" : String) ≠ "" ∧ IsBarePort "9000" 9000 ∧
        ∃ g1 cs, init freshGame ⟨"9000", "Host", localResolver⟩ 800 600 (167 / 10) =
            some (true, g1, cs) ∧
          Call.InitAsMasterPeer 9000 "Host" ∈ cs ∧ cs.countP Call.isInitAsMasterPeer = 1 ∧
          cs.countP Call.isInitAsPeer = 0) :=
  ⟨⟨by decide, by decide,
    (init_selects_role freshGame ⟨"127.0.0.1:8000", "Guest", localResolver⟩ 800 600 (167 / 10)
      (by decide) (by decide)).2.2.1 (by decide) ⟨2130706433, 8000⟩ (by decide)⟩,
    ⟨by decide, by decide, ⟨by decide, by decide, by decide, by decide⟩,
      (init_selects_role freshGame ⟨"9000", "Host", localResolver⟩ 800 600 (167 / 10)
        (by decide) (by decide)).1 9000 ⟨by decide, by decide, by decide, by decide⟩⟩⟩

theorem not_mem_of_countP_eq_zero {p : Call → Bool} {cs : List Call} (h : cs.countP p = 0)
    {c : Call} (hc : c ∈ cs) : p c = false := by
  rw [List.countP_eq_zero] at h
  simpa using h c hc

/-- C5, as the code has it: when the destination or the name of the command line is empty,
`Game::init` replaces both, by `"8000"` and `"Harris"`, and so initialises a master peer on
port 8000 named Harris; when both are non-empty it goes on with both as given: an
initialiser it calls has the port read from, or the address resolved from, the given
destination, and the given name. -/
theorem init_defaults_replace_both (g : Game) (ie : InitEnv) (width height : Nat) (dt : ℚ) :
    ((ie.arg1 = "" ∨ ie.arg2 = "") →
      commandLine ie.arg1 ie.arg2 = ("8000", "Harris") ∧
      ∃ g1 cs, init g ie width height dt = some (true, g1, cs) ∧
        Call.InitAsMasterPeer 8000 "Harris" ∈ cs ∧ cs.countP Call.isInitAsMasterPeer = 1 ∧
        cs.countP Call.isInitAsPeer = 0) ∧
      ((ie.arg1 ≠ "" ∧ ie.arg2 ≠ "") →
        commandLine ie.arg1 ie.arg2 = (ie.arg1, ie.arg2) ∧
        ∀ b g1 cs, init g ie width height dt = some (b, g1, cs) →
          (∀ port name, Call.InitAsMasterPeer port name ∈ cs →
            stoi ie.arg1 = some port ∧ name = ie.arg2) ∧
          (∀ a name, Call.InitAsPeer a name ∈ cs →
            ie.CreateIPv4FromString ie.arg1 = some a ∧ name = ie.arg2)) := by
  obtain ⟨pre, g0, h1, h2, -, -, -, hM, hP⟩ := init_cases g ie width height dt
  obtain ⟨r1, r2⟩ := initRest_calls g0 width height dt
  constructor
  · intro he
    have hcl : commandLine ie.arg1 ie.arg2 = ("8000", "Harris") := by
      unfold commandLine
      rw [if_pos he]
    rw [hcl] at hM
    simp only at hM
    refine ⟨hcl, _, _, (hM (by decide)).2 8000 (by decide), by simp, ?_, ?_⟩
    · simp [List.countP_append, List.countP_cons, h1, r1, Call.isInitAsMasterPeer]
    · simp [List.countP_append, List.countP_cons, h2, r2, Call.isInitAsPeer]
  · rintro ⟨hd, hn⟩
    have hcl : commandLine ie.arg1 ie.arg2 = (ie.arg1, ie.arg2) := by
      simp [commandLine, hd, hn]
    rw [hcl] at hM hP
    simp only at hM hP
    refine ⟨hcl, ?_⟩
    intro b g1 cs h
    have m1 : ∀ {c : Call}, c ∈ pre → c.isInitAsMasterPeer = false :=
      fun hc => not_mem_of_countP_eq_zero h1 hc
    have m2 : ∀ {c : Call}, c ∈ pre → c.isInitAsPeer = false :=
      fun hc => not_mem_of_countP_eq_zero h2 hc
    have m3 : ∀ {c : Call}, c ∈ (initRest g0 width height dt).2 →
        c.isInitAsMasterPeer = false := fun hc => not_mem_of_countP_eq_zero r1 hc
    have m4 : ∀ {c : Call}, c ∈ (initRest g0 width height dt).2 →
        c.isInitAsPeer = false := fun hc => not_mem_of_countP_eq_zero r2 hc
    by_cases hc : ':' ∈ ie.arg1.toList
    · cases hr : ie.CreateIPv4FromString ie.arg1 with
      | none =>
        rw [(hP hc).1 hr] at h
        simp only [Option.some.injEq, Prod.mk.injEq] at h
        obtain ⟨-, -, rfl⟩ := h
        constructor
        · intro port name hmem
          simp only [List.mem_append, List.mem_singleton] at hmem
          rcases hmem with hmem | hmem
          · have := m1 hmem
            simp [Call.isInitAsMasterPeer] at this
          · simp at hmem
        · intro a name hmem
          simp only [List.mem_append, List.mem_singleton] at hmem
          rcases hmem with hmem | hmem
          · have := m2 hmem
            simp [Call.isInitAsPeer] at this
          · simp at hmem
      | some a0 =>
        rw [(hP hc).2 a0 hr] at h
        simp only [Option.some.injEq, Prod.mk.injEq] at h
        obtain ⟨-, -, rfl⟩ := h
        constructor
        · intro port name hmem
          simp only [List.mem_append, List.mem_singleton] at hmem
          rcases hmem with (hmem | hmem) | hmem
          · have := m1 hmem
            simp [Call.isInitAsMasterPeer] at this
          · simp at hmem
          · have := m3 hmem
            simp [Call.isInitAsMasterPeer] at this
        · intro a name hmem
          simp only [List.mem_append, List.mem_singleton] at hmem
          rcases hmem with (hmem | hmem) | hmem
          · have := m2 hmem
            simp [Call.isInitAsPeer] at this
          · simp only [Call.InitAsPeer.injEq] at hmem
            exact ⟨by rw [hmem.1], hmem.2⟩
          · have := m4 hmem
            simp [Call.isInitAsPeer] at this
    · cases hs : stoi ie.arg1 with
      | none =>
        rw [(hM hc).1 hs] at h
        simp at h
      | some p0 =>
        rw [(hM hc).2 p0 hs] at h
        simp only [Option.some.injEq, Prod.mk.injEq] at h
        obtain ⟨-, -, rfl⟩ := h
        constructor
        · intro port name hmem
          simp only [List.mem_append, List.mem_singleton] at hmem
          rcases hmem with (hmem | hmem) | hmem
          · have := m1 hmem
            simp [Call.isInitAsMasterPeer] at this
          · simp only [Call.InitAsMasterPeer.injEq] at hmem
            exact ⟨by rw [hmem.1], hmem.2⟩
          · have := m3 hmem
            simp [Call.isInitAsMasterPeer] at this
        · intro a name hmem
          simp only [List.mem_append, List.mem_singleton] at hmem
          rcases hmem with (hmem | hmem) | hmem
          · have := m2 hmem
            simp [Call.isInitAsPeer] at this
          · simp at hmem
          · have := m4 hmem
            simp [Call.isInitAsPeer] at this

theorem init_defaults_replace_both_witness :
    commandLine "" "" = ("8000", "Harris") ∧
      ∃ g1 cs, init freshGame ⟨"", "", localResolver⟩ 800 600 (167 / 10) = some (true, g1, cs) ∧
        Call.InitAsMasterPeer 8000 "Harris" ∈ cs ∧ cs.countP Call.isInitAsMasterPeer = 1 ∧
        cs.countP Call.isInitAsPeer = 0 :=
  (init_defaults_replace_both freshGame ⟨"", "", localResolver⟩ 800 600 (167 / 10)).1
    (Or.inl rfl)

/-- C5, as the claim has it, fails: with the destination `127.0.0.1:8000`, which the
address factory resolves, and an empty name, `Game::init` does not go on with the given
destination: it replaces it by `8000`, calls `InitAsMasterPeer(8000, "Harris")` and never
`InitAsPeer`. -/
theorem init_empty_name_drops_destination :
    localResolver "127.0.0.1:8000" = some ⟨2130706433, 8000⟩ ∧
      (commandLine "127.0.0.1:8000" "").1 ≠ "127.0.0.1:8000" ∧
      ∃ g1 cs, init freshGame ⟨"127.0.0.1:8000", "", localResolver⟩ 800 600 (167 / 10) =
          some (true, g1, cs) ∧
        Call.InitAsMasterPeer 8000 "Harris" ∈ cs ∧ cs.countP Call.isInitAsPeer = 0 := by
  refine ⟨by decide, by decide, ?_⟩
  have h : init freshGame ⟨"127.0.0.1:8000", "", localResolver⟩ 800 600 (167 / 10) =
      some (true, (initRest { freshGame with mpNetworkManager := true } 800 600 (167 / 10)).1,
        [.SocketUtil_StaticInit, .new_NetworkManager] ++ [.InitAsMasterPeer 8000 "Harris"]
          ++ (initRest { freshGame with mpNetworkManager := true } 800 600 (167 / 10)).2) := by
    have hs : stoi "8000" = some 8000 := by decide
    simp [init, commandLine, freshGame, hs]
  exact ⟨_, _, h, by simp, by
    simp [List.countP_cons, Call.isInitAsPeer, initRest, loadBuffers]⟩

/-- When the destination `Game::init` goes on with contains a colon and the address
factory returns no address for it, `init` returns false before any initialiser call. -/
theorem init_false_of_unresolved (g : Game) (ie : InitEnv) (width height : Nat)
    (dt : ℚ) (hc : ':' ∈ (commandLine ie.arg1 ie.arg2).1.toList)
    (hr : ie.CreateIPv4FromString (commandLine ie.arg1 ie.arg2).1 = none) :
    ∃ g1 cs, init g ie width height dt = some (false, g1, cs) ∧
      cs.countP Call.isInitAsPeer = 0 ∧ cs.countP Call.isInitAsMasterPeer = 0 ∧
      cs.countP Call.isManagerCreation = 0 ∧ g1.mIsInitted = false ∧
      ((g.mIsInitted = true ∨ (g.mpUnitManager = false ∧ g.mpGraphicsBufferManager = false ∧
          g.mpMemoryManager = false)) →
        g1.mpUnitManager = false ∧ g1.mpGraphicsBufferManager = false ∧
          g1.mpMemoryManager = false) := by
  obtain ⟨pre, g0, h1, h2, h3, h4, ⟨l1, l2, l3⟩, -, hP⟩ := init_cases g ie width height dt
  refine ⟨g0, _, (hP hc).1 hr, ?_, ?_, ?_, h4, ?_⟩
  · simp [List.countP_append, List.countP_cons, h2, Call.isInitAsPeer]
  · simp [List.countP_append, List.countP_cons, h1, Call.isInitAsMasterPeer]
  · simp [List.countP_append, List.countP_cons, h3, Call.isManagerCreation]
  · rintro (hI | ⟨m1, m2, m3⟩)
    · simp [l1, l2, l3, hI]
    · simp [l1, l2, l3, m1, m2, m3]

/-- C6, as the code has it: for every destination containing a colon that is passed with a
non-empty name and for which the address factory returns no address, `Game::init` returns
false, has called neither `InitAsPeer` nor `InitAsMasterPeer`, has created no unit manager,
graphics buffer manager or memory manager, and leaves `mIsInitted` false; the three
managers are not live afterwards when the game was initialised before the call or had
none. -/
theorem init_unresolved_address_aborts (g : Game) (ie : InitEnv) (width height : Nat)
    (dt : ℚ) (hc : ':' ∈ ie.arg1.toList) (hn : ie.arg2 ≠ "")
    (hr : ie.CreateIPv4FromString ie.arg1 = none) :
    ∃ g1 cs, init g ie width height dt = some (false, g1, cs) ∧
      cs.countP Call.isInitAsPeer = 0 ∧ cs.countP Call.isInitAsMasterPeer = 0 ∧
      cs.countP Call.isManagerCreation = 0 ∧ g1.mIsInitted = false ∧
      ((g.mIsInitted = true ∨ (g.mpUnitManager = false ∧ g.mpGraphicsBufferManager = false ∧
          g.mpMemoryManager = false)) →
        g1.mpUnitManager = false ∧ g1.mpGraphicsBufferManager = false ∧
          g1.mpMemoryManager = false) := by
  have hd : ie.arg1 ≠ "" := by
    intro h0
    rw [h0] at hc
    simp at hc
  have hcl : commandLine ie.arg1 ie.arg2 = (ie.arg1, ie.arg2) := by
    simp [commandLine, hd, hn]
  exact init_false_of_unresolved g ie width height dt (by rw [hcl]; exact hc)
    (by rw [hcl]; exact hr)

theorem init_unresolved_address_aborts_witness :
    ':' ∈ ("10.0.0.1:9000" : String).toList ∧ ("Guest" : String) ≠ "" ∧
      localResolver "10.0.0.1:9000" = none ∧
      ∃ g1 cs, init startedGame ⟨"10.0.0.1:9000", "Guest", localResolver⟩ 800 600 (167 / 10) =
          some (false, g1, cs) ∧
        cs.countP Call.isInitAsPeer = 0 ∧ cs.countP Call.isInitAsMasterPeer = 0 ∧
        cs.countP Call.isManagerCreation = 0 ∧ g1.mIsInitted = false ∧
        ((startedGame.mIsInitted = true ∨ (startedGame.mpUnitManager = false ∧
            startedGame.mpGraphicsBufferManager = false ∧
            startedGame.mpMemoryManager = false)) →
          g1.mpUnitManager = false ∧ g1.mpGraphicsBufferManager = false ∧
            g1.mpMemoryManager = false) :=
  ⟨by decide, by decide, by decide,
    init_unresolved_address_aborts startedGame ⟨"10.0.0.1:9000", "Guest", localResolver⟩
      800 600 (167 / 10) (by decide) (by decide) (by decide)⟩

/-- C6, as the claim has it, fails: the destination `10.0.0.1:9000` contains a colon and
the address factory returns no address for it, yet passed with an empty name `Game::init`
returns true: it replaces the destination by `8000`, calls `InitAsMasterPeer(8000,
"Harris")`, creates the memory, graphics buffer and unit managers and sets `mIsInitted`. -/
theorem init_empty_name_skips_resolution :
    ':' ∈ ("10.0.0.1:9000" : String).toList ∧ localResolver "10.0.0.1:9000" = none ∧
      ∃ g1 cs, init freshGame ⟨"10.0.0.1:9000", "", localResolver⟩ 800 600 (167 / 10) =
          some (true, g1, cs) ∧
        Call.InitAsMasterPeer 8000 "Harris" ∈ cs ∧ cs.countP Call.isInitAsMasterPeer = 1 ∧
        cs.countP Call.isManagerCreation = 3 ∧ g1.mIsInitted = true := by
  refine ⟨by decide, by decide, ?_⟩
  have h : init freshGame ⟨"10.0.0.1:9000", "", localResolver⟩ 800 600 (167 / 10) =
      some (true, (initRest { freshGame with mpNetworkManager := true } 800 600 (167 / 10)).1,
        [.SocketUtil_StaticInit, .new_NetworkManager] ++ [.InitAsMasterPeer 8000 "Harris"]
          ++ (initRest { freshGame with mpNetworkManager := true } 800 600 (167 / 10)).2) := by
    have hs : stoi "8000" = some 8000 := by decide
    simp [init, commandLine, freshGame, hs]
  exact ⟨_, _, h, by simp, by
    simp [List.countP_cons, Call.isInitAsMasterPeer, initRest, loadBuffers], by
    simp [List.countP_cons, Call.isManagerCreation, initRest, loadBuffers], rfl⟩

/-! ## The flush timer over a run of the loop -/

theorem service_congr {g g1 : Game} (h : g1.mTargetTimePerFrame = g.mTargetTimePerFrame)
    (t : ℚ) (e : Env) : service g1 t e = service g t e := by
  unfold service
  rw [h]

/-- The flush timer and the flush of one iteration, by the state and the timer. -/
theorem tick_flush {g : Game} {t : ℚ} {e : Env} {r : TickResult} (h : tick g t e = some r) :
    r.game.mTargetTimePerFrame = g.mTargetTimePerFrame ∧
      r.game.mShouldContinue = (g.mShouldContinue && !e.input.ESCAPE_KEY) ∧
      (e.GetState = .NMS_Delay → r.packetTimer = t ∧ r.calls.countP Call.isSendOutgoing = 0) ∧
      (e.GetState ≠ .NMS_Delay → 500 ≤ t + g.mTargetTimePerFrame →
        r.packetTimer = 0 ∧ r.calls.countP Call.isSendOutgoing = 1) ∧
      (e.GetState ≠ .NMS_Delay → t + g.mTargetTimePerFrame < 500 →
        r.packetTimer = t + g.mTargetTimePerFrame ∧
          r.calls.countP Call.isSendOutgoing = 0) := by
  obtain ⟨g1, ic, hi, hg, ht, hc⟩ := tick_eq h
  obtain ⟨-, -, -, hd, hsc⟩ := getInput_eq hi
  have h2 := countP_eq_zero_of_inputCalls isSendOutgoing_of_inputCall (getInput_inputCalls hi)
  rw [service_congr hd] at ht hc
  refine ⟨by rw [hg, hd], by rw [hg, hsc], ?_, ?_, ?_⟩
  · intro hD
    rw [service_delay g t hD] at ht hc
    refine ⟨ht, ?_⟩
    rw [hc]
    simp [List.countP_append, h2, List.countP_cons, Call.isSendOutgoing]
  · intro hA hge
    rw [service_active g t hA, if_pos hge] at ht hc
    refine ⟨ht, ?_⟩
    rw [hc]
    simp [List.countP_append, h2, List.countP_cons, Call.isSendOutgoing, update]
  · intro hA hlt
    rw [service_active g t hA, if_neg (not_le.mpr hlt)] at ht hc
    refine ⟨ht, ?_⟩
    rw [hc]
    simp [List.countP_append, h2, List.countP_cons, Call.isSendOutgoing, update]

/-- How a run of the loop over at least one environment starts. -/
theorem doLoopFrom_cons {g : Game} {t : ℚ} {e : Env} {es : List Env} {rs : List TickResult}
    (h : doLoopFrom g t (e :: es) = some rs) :
    (g.mShouldContinue = false ∧ rs = []) ∨
      (g.mShouldContinue = true ∧ ∃ r rs1, tick g t e = some r ∧
        doLoopFrom r.game r.packetTimer es = some rs1 ∧ rs = r :: rs1) := by
  unfold doLoopFrom at h
  cases hs : g.mShouldContinue
  · simp only [hs, Bool.false_eq_true, if_false, Option.some.injEq] at h
    exact Or.inl ⟨rfl, h.symm⟩
  · simp only [hs, if_true] at h
    split at h
    · simp at h
    · rename_i r hr
      split at h
      · simp at h
      · rename_i rs1 hrs
        simp only [Option.some.injEq] at h
        exact Or.inr ⟨rfl, r, rs1, hr, hrs, h.symm⟩

theorem doLoopFrom_isSome (es : List Env) (hb : ∀ e ∈ es, e.buffersLoaded) :
    ∀ (g : Game) (t : ℚ), ∃ rs, doLoopFrom g t es = some rs ∧
      (g.mShouldContinue = true → (∀ e ∈ es, e.input.ESCAPE_KEY = false) →
        rs.length = es.length) := by
  induction es with
  | nil =>
    intro g t
    exact ⟨[], rfl, fun _ _ => rfl⟩
  | cons e es ih =>
    intro g t
    have hb1 : ∀ e ∈ es, e.buffersLoaded := fun x hx => hb x (List.mem_cons_of_mem _ hx)
    obtain ⟨r, hr⟩ := tick_isSome g t (hb e (List.mem_cons_self _ _))
    obtain ⟨rs1, hrs1, hlen⟩ := ih hb1 r.game r.packetTimer
    unfold doLoopFrom
    cases hs : g.mShouldContinue
    · exact ⟨[], by simp, by simp⟩
    · refine ⟨r :: rs1, by simp [hr, hrs1], ?_⟩
      intro _ hesc
      obtain ⟨-, hsc, -⟩ := tick_flush hr
      have : r.game.mShouldContinue = true := by
        rw [hsc, hs, hesc e (List.mem_cons_self _ _)]
        rfl
      simp [hlen this (fun x hx => hesc x (List.mem_cons_of_mem _ hx))]

theorem doLoopFrom_timer_bounds (es : List Env) :
    ∀ (g : Game) (t : ℚ) (rs : List TickResult), 0 ≤ g.mTargetTimePerFrame →
      0 ≤ t → t < 500 → doLoopFrom g t es = some rs →
      ∀ r ∈ rs, 0 ≤ r.packetTimer ∧ r.packetTimer < 500 ∧
        (r.calls.countP Call.isSendOutgoing ≠ 0 → r.packetTimer = 0) := by
  induction es with
  | nil =>
    intro g t rs _ _ _ h
    simp only [doLoopFrom, Option.some.injEq] at h
    subst h
    simp
  | cons e es ih =>
    intro g t rs hd h0 h5 h
    rcases doLoopFrom_cons h with ⟨-, rfl⟩ | ⟨-, r, rs1, hr, hrs1, rfl⟩
    · simp
    · obtain ⟨hg, -, hD, hA1, hA2⟩ := tick_flush hr
      have hr0 : 0 ≤ r.packetTimer ∧ r.packetTimer < 500 ∧
          (r.calls.countP Call.isSendOutgoing ≠ 0 → r.packetTimer = 0) := by
        by_cases hs : e.GetState = .NMS_Delay
        · obtain ⟨a, b⟩ := hD hs
          rw [a, b]
          exact ⟨h0, h5, fun hne => absurd rfl hne⟩
        · by_cases hge : 500 ≤ t + g.mTargetTimePerFrame
          · obtain ⟨a, -⟩ := hA1 hs hge
            rw [a]
            exact ⟨le_refl 0, by norm_num, fun _ => rfl⟩
          · obtain ⟨a, b⟩ := hA2 hs (not_le.mp hge)
            rw [a, b]
            exact ⟨add_nonneg h0 hd, not_le.mp hge, fun hne => absurd rfl hne⟩
      intro x hx
      rcases List.mem_cons.mp hx with rfl | hx
      · exact hr0
      · exact ih r.game r.packetTimer rs1 (by rw [hg]; exact hd) hr0.1 hr0.2.1 hrs1 x hx

/-- C10: for a target frame time that is not negative and any session states over the
iterations of the loop of `Game::doLoop`, the first iteration starts from `packetTimer` 0,
and at the end of every iteration `0 <= packetTimer < 500`, with `packetTimer` exactly 0
when the iteration called `SendOutgoingPackets`.  The loop runs (one iteration per
environment until the escape key) when the buffers are loaded. -/
theorem packetTimer_stays_in_range (g : Game) (envs : List Env)
    (hd : 0 ≤ g.mTargetTimePerFrame) :
    (∀ rs, doLoop g envs = some rs →
      (∀ e es r rs1, envs = e :: es → rs = r :: rs1 → tick g 0 e = some r) ∧
      ∀ r ∈ rs, 0 ≤ r.packetTimer ∧ r.packetTimer < 500 ∧
        (r.calls.countP Call.isSendOutgoing ≠ 0 → r.packetTimer = 0)) ∧
      ((∀ e ∈ envs, e.buffersLoaded) → ∃ rs, doLoop g envs = some rs ∧
        (g.mShouldContinue = true → (∀ e ∈ envs, e.input.ESCAPE_KEY = false) →
          rs.length = envs.length)) := by
  refine ⟨?_, fun hb => doLoopFrom_isSome envs hb g 0⟩
  intro rs h
  unfold doLoop at h
  refine ⟨?_, doLoopFrom_timer_bounds envs g 0 rs hd (le_refl 0) (by norm_num) h⟩
  intro e es r rs1 he hrs
  subst he
  rcases doLoopFrom_cons h with ⟨-, h1⟩ | ⟨-, r2, rs2, hr2, -, h2⟩
  · rw [h1] at hrs
    simp at hrs
  · rw [h2] at hrs
    simp only [List.cons.injEq] at hrs
    rw [← hrs.1]
    exact hr2


/-! ## The cadence of the flush -/

/-- A whole number of frame times reaches 500 exactly from `⌈500 / d⌉` frames on. -/
theorem frames_reach_threshold {d : ℚ} (hd : 0 < d) (m : ℕ) :
    500 ≤ (m : ℚ) * d ↔ ⌈(500 : ℚ) / d⌉₊ ≤ m := by
  rw [Nat.ceil_le, div_le_iff₀ hd]

/-- With period `K`, iteration `n + 1` is a multiple of `K` exactly when it comes `K`
iterations after the last multiple before it. -/
theorem dvd_succ_iff_since_last {K : ℕ} (hK : 0 < K) (n : ℕ) :
    K ∣ n + 1 ↔ K ≤ n + 1 - K * (n / K) := by
  have hmod : n % K < K := Nat.mod_lt n hK
  have hdm : K * (n / K) + n % K = n := Nat.div_add_mod n K
  have hsub : n + 1 - K * (n / K) = n % K + 1 := by omega
  rw [hsub]
  have hsplit : n + 1 = K * (n / K) + (n % K + 1) := by omega
  constructor
  · intro hdvd
    rw [hsplit] at hdvd
    have h2 : K ∣ n % K + 1 := (Nat.dvd_add_right (Dvd.intro _ rfl)).mp hdvd
    exact Nat.le_of_dvd (Nat.succ_pos _) h2
  · intro hle
    have heq : n % K + 1 = K := by omega
    rw [hsplit, heq]
    exact Dvd.intro (n / K + 1) (by ring)

theorem activeRun_buffersLoaded : ∀ e ∈ activeRun, e.buffersLoaded := by
  intro e he
  simp only [activeRun, List.mem_cons, List.mem_singleton, List.not_mem_nil, or_false] at he
  rcases he with rfl | rfl | rfl | rfl <;> exact sampleEnv_buffersLoaded _ _

theorem mixedRun_buffersLoaded : ∀ e ∈ mixedRun, e.buffersLoaded := by
  intro e he
  simp only [mixedRun, List.mem_cons, List.mem_singleton, List.not_mem_nil, or_false] at he
  rcases he with rfl | rfl | rfl | rfl <;> exact sampleEnv_buffersLoaded _ _

theorem activeRun_noEscape : ∀ e ∈ activeRun, e.input.ESCAPE_KEY = false := by
  intro e he
  simp only [activeRun, List.mem_cons, List.mem_singleton, List.not_mem_nil, or_false] at he
  rcases he with rfl | rfl | rfl | rfl <;> rfl

theorem mixedRun_noEscape : ∀ e ∈ mixedRun, e.input.ESCAPE_KEY = false := by
  intro e he
  simp only [mixedRun, List.mem_cons, List.mem_singleton, List.not_mem_nil, or_false] at he
  rcases he with rfl | rfl | rfl | rfl <;> rfl

theorem activeRun_notDelayed : ∀ e ∈ activeRun, e.GetState ≠ .NMS_Delay := by
  intro e he
  simp only [activeRun, List.mem_cons, List.mem_singleton, List.not_mem_nil, or_false] at he
  rcases he with rfl | rfl | rfl | rfl <;> decide


theorem flushedAt_iff {K : ℕ} {ticks : List (List Call)}
    (h : ∀ (n : ℕ) (cs : List Call), ticks[n]? = some cs →
      cs.countP Call.isSendOutgoing = if K ∣ n + 1 then 1 else 0)
    (m : ℕ) (hm : m ≤ ticks.length) : flushedAt ticks m = true ↔ 0 < m ∧ K ∣ m := by
  cases m with
  | zero => simp [flushedAt]
  | succ n =>
    have hn : n < ticks.length := hm
    have hget : ticks[n]? = some ticks[n] := List.getElem?_eq_getElem hn
    have hc := h n ticks[n] hget
    simp only [flushedAt, hget, Nat.succ_pos, true_and]
    rw [List.any_eq_true, ← List.countP_pos_iff, hc]
    by_cases hd : K ∣ n + 1 <;> simp [hd]

theorem prevFlush_eq {K : ℕ} {ticks : List (List Call)}
    (h : ∀ (n : ℕ) (cs : List Call), ticks[n]? = some cs →
      cs.countP Call.isSendOutgoing = if K ∣ n + 1 then 1 else 0) :
    ∀ n, n ≤ ticks.length + 1 → prevFlush ticks n = K * ((n - 1) / K) := by
  intro n
  induction n with
  | zero =>
    intro _
    simp [prevFlush]
  | succ n ih =>
    intro hn
    have hn' : n ≤ ticks.length := by omega
    have hf := flushedAt_iff h n hn'
    simp only [prevFlush, Nat.add_sub_cancel]
    by_cases hfl : flushedAt ticks n = true
    · rw [if_pos hfl]
      exact (Nat.mul_div_cancel' (hf.mp hfl).2).symm
    · rw [if_neg hfl, ih (by omega)]
      cases n with
      | zero => simp
      | succ m =>
        have hnd : ¬ K ∣ m + 1 := fun hdvd => hfl (hf.mpr ⟨Nat.succ_pos m, hdvd⟩)
        simp only [Nat.add_sub_cancel]
        rw [Nat.succ_div, if_neg hnd, Nat.add_zero]

theorem prevFlush_eq_zero {ticks : List (List Call)}
    (h : ∀ (n : ℕ) (cs : List Call), ticks[n]? = some cs → cs.countP Call.isSendOutgoing = 0) :
    ∀ n, prevFlush ticks n = 0 := by
  have hf : ∀ m, flushedAt ticks m = false := by
    intro m
    cases m with
    | zero => rfl
    | succ n =>
      simp only [flushedAt]
      cases hget : ticks[n]? with
      | none => rfl
      | some cs =>
        have hc := h n cs hget
        rw [List.countP_eq_zero] at hc
        simp only [List.any_eq_false]
        exact hc
  intro n
  induction n with
  | zero => rfl
  | succ n ih => simp [prevFlush, hf n, ih]

/-! ## The loop with the flush timer in floating point -/

theorem serviceFloat_congr {g g1 : Game} (h : g1.mTargetTimePerFrame = g.mTargetTimePerFrame)
    (t : FloatVal) (e : Env) : serviceFloat g1 t e = serviceFloat g t e := by
  unfold serviceFloat
  rw [h]

/-- What `tickFloat` returns, in terms of `getInput` and `serviceFloat`. -/
theorem tickFloat_eq {g : Game} {t : FloatVal} {e : Env} {r : FloatTickResult}
    (h : tickFloat g t e = some r) :
    ∃ g1 ic, getInput g e = some (g1, ic) ∧ r.game = g1 ∧
      r.packetTimer = (serviceFloat g1 t e).1 ∧
      r.calls = [.tracker_clearTracker "loop", .tracker_startTracking "loop", .timer_start]
        ++ ic ++ (serviceFloat g1 t e).2
        ++ [.render, .GraphicsSystem_draw ⟨0, 0⟩ .WOODS (1 / 2), .UnitManager_draw, .flip]
        ++ [.timer_sleepUntilElapsed g1.mTargetTimePerFrame, .tracker_stopTracking "loop"] := by
  unfold tickFloat at h
  split at h
  · simp at h
  · rename_i g1 ic hi
    split at h
    · simp at h
    · rename_i rc hr
      have hrc := render_eq hr
      subst hrc
      simp only [Option.some.injEq] at h
      subst h
      exact ⟨g1, ic, hi, rfl, rfl, rfl⟩

theorem tickFloat_isSome (g : Game) (t : FloatVal) {e : Env} (hb : e.buffersLoaded) :
    ∃ r, tickFloat g t e = some r := by
  obtain ⟨⟨g1, ic⟩, hi⟩ := getInput_isSome g hb
  unfold tickFloat
  simp only [hi]
  unfold render
  simp [hb _]

/-- The fields of `Game` after one iteration. -/
theorem tickFloat_game {g : Game} {t : FloatVal} {e : Env} {r : FloatTickResult}
    (h : tickFloat g t e = some r) :
    r.game.mTargetTimePerFrame = g.mTargetTimePerFrame ∧
      r.game.mShouldContinue = (g.mShouldContinue && !e.input.ESCAPE_KEY) := by
  obtain ⟨g1, ic, hi, hg, -, -⟩ := tickFloat_eq h
  obtain ⟨-, -, -, hd, hsc⟩ := getInput_eq hi
  exact ⟨by rw [hg, hd], by rw [hg, hsc]⟩

/-- The flush timer and the flush of one iteration that is delayed. -/
theorem tickFloat_delay {g : Game} {t : FloatVal} {e : Env} {r : FloatTickResult}
    (h : tickFloat g t e = some r) (hD : e.GetState = .NMS_Delay) :
    r.packetTimer = t ∧ r.calls.countP Call.isSendOutgoing = 0 := by
  obtain ⟨g1, ic, hi, -, ht, hc⟩ := tickFloat_eq h
  have h2 := countP_eq_zero_of_inputCalls isSendOutgoing_of_inputCall (getInput_inputCalls hi)
  simp only [serviceFloat, hD, ne_eq, not_true_eq_false, if_false] at ht hc
  refine ⟨ht, ?_⟩
  rw [hc]
  simp [List.countP_append, h2, List.countP_cons, Call.isSendOutgoing]

/-- The flush timer and the flush of one iteration that is not delayed. -/
theorem tickFloat_flush {g : Game} {t : FloatVal} {e : Env} {r : FloatTickResult}
    (h : tickFloat g t e = some r) (hA : e.GetState ≠ .NMS_Delay) :
    r.game.mTargetTimePerFrame = g.mTargetTimePerFrame ∧
      (reachesThreshold (addToTimer t g.mTargetTimePerFrame) = true →
        r.packetTimer = .finite 0 ∧ r.calls.countP Call.isSendOutgoing = 1) ∧
      (reachesThreshold (addToTimer t g.mTargetTimePerFrame) = false →
        r.packetTimer = addToTimer t g.mTargetTimePerFrame ∧
          r.calls.countP Call.isSendOutgoing = 0) := by
  obtain ⟨g1, ic, hi, hg, ht, hc⟩ := tickFloat_eq h
  obtain ⟨-, -, -, hd, -⟩ := getInput_eq hi
  have h2 := countP_eq_zero_of_inputCalls isSendOutgoing_of_inputCall (getInput_inputCalls hi)
  rw [serviceFloat_congr hd] at ht hc
  refine ⟨by rw [hg, hd], ?_, ?_⟩
  · intro hr
    simp only [serviceFloat, hA, ne_eq, not_false_eq_true, if_true, hr] at ht hc
    refine ⟨ht, ?_⟩
    rw [hc]
    simp [List.countP_append, h2, List.countP_cons, Call.isSendOutgoing, update]
  · intro hr
    simp only [serviceFloat, hA, ne_eq, not_false_eq_true, if_true, hr,
      Bool.false_eq_true, if_false] at ht hc
    refine ⟨ht, ?_⟩
    rw [hc]
    simp [List.countP_append, h2, List.countP_cons, Call.isSendOutgoing, update]

/-- How a run of the loop over at least one environment starts. -/
theorem doLoopFloatFrom_cons {g : Game} {t : FloatVal} {e : Env} {es : List Env}
    {rs : List FloatTickResult} (h : doLoopFloatFrom g t (e :: es) = some rs) :
    (g.mShouldContinue = false ∧ rs = []) ∨
      (g.mShouldContinue = true ∧ ∃ r rs1, tickFloat g t e = some r ∧
        doLoopFloatFrom r.game r.packetTimer es = some rs1 ∧ rs = r :: rs1) := by
  unfold doLoopFloatFrom at h
  cases hs : g.mShouldContinue
  · simp only [hs, Bool.false_eq_true, if_false, Option.some.injEq] at h
    exact Or.inl ⟨rfl, h.symm⟩
  · simp only [hs, if_true] at h
    split at h
    · simp at h
    · rename_i r hr
      split at h
      · simp at h
      · rename_i rs1 hrs
        simp only [Option.some.injEq] at h
        exact Or.inr ⟨rfl, r, rs1, hr, hrs, h.symm⟩

theorem doLoopFloatFrom_isSome (es : List Env) (hb : ∀ e ∈ es, e.buffersLoaded) :
    ∀ (g : Game) (t : FloatVal), ∃ rs, doLoopFloatFrom g t es = some rs ∧
      (g.mShouldContinue = true → (∀ e ∈ es, e.input.ESCAPE_KEY = false) →
        rs.length = es.length) := by
  induction es with
  | nil =>
    intro g t
    exact ⟨[], rfl, fun _ _ => rfl⟩
  | cons e es ih =>
    intro g t
    have hb1 : ∀ e ∈ es, e.buffersLoaded := fun x hx => hb x (List.mem_cons_of_mem _ hx)
    obtain ⟨r, hr⟩ := tickFloat_isSome g t (hb e (List.mem_cons_self _ _))
    obtain ⟨rs1, hrs1, hlen⟩ := ih hb1 r.game r.packetTimer
    unfold doLoopFloatFrom
    cases hs : g.mShouldContinue
    · exact ⟨[], by simp, by simp⟩
    · refine ⟨r :: rs1, by simp [hr, hrs1], ?_⟩
      intro _ hesc
      obtain ⟨-, hsc⟩ := tickFloat_game hr
      have : r.game.mShouldContinue = true := by
        rw [hsc, hs, hesc e (List.mem_cons_self _ _)]
        rfl
      simp [hlen this (fun x hx => hesc x (List.mem_cons_of_mem _ hx))]

/-- When `P` additions are the first to reach the threshold, a run that starts `j < P`
additions after a flush flushes exactly when the count of additions comes to a multiple of
`P`. -/
theorem doLoopFloatFrom_flushes (P : ℕ) (es : List Env) :
    ∀ (g : Game) (j : ℕ) (rs : List FloatTickResult),
      reachesThreshold (timerAfter g.mTargetTimePerFrame P) = true →
      (∀ k, k < P → reachesThreshold (timerAfter g.mTargetTimePerFrame k) = false) →
      j < P → (∀ e ∈ es, e.GetState ≠ .NMS_Delay) →
      doLoopFloatFrom g (timerAfter g.mTargetTimePerFrame j) es = some rs →
      ∀ (n : ℕ) (r : FloatTickResult), rs[n]? = some r →
        r.calls.countP Call.isSendOutgoing = if P ∣ j + n + 1 then 1 else 0 := by
  induction es with
  | nil =>
    intro g j rs _ _ _ _ h n r hn
    simp only [doLoopFloatFrom, Option.some.injEq] at h
    subst h
    simp at hn
  | cons e es ih =>
    intro g j rs hP hmin hj hA h n r hn
    rcases doLoopFloatFrom_cons h with ⟨-, rfl⟩ | ⟨-, r0, rs1, hr0, hrs1, rfl⟩
    · simp at hn
    · obtain ⟨hg, hyes, hno⟩ := tickFloat_flush hr0 (hA e (List.mem_cons_self _ _))
      have hA' : ∀ x ∈ es, x.GetState ≠ .NMS_Delay :=
        fun x hx => hA x (List.mem_cons_of_mem _ hx)
      have hnext : addToTimer (timerAfter g.mTargetTimePerFrame j) g.mTargetTimePerFrame =
          timerAfter g.mTargetTimePerFrame (j + 1) := rfl
      rw [hnext] at hyes hno
      by_cases hK : j + 1 = P
      · -- the flush
        obtain ⟨a, b⟩ := hyes (by rw [hK]; exact hP)
        cases n with
        | zero =>
          simp only [List.getElem?_cons_zero, Option.some.injEq] at hn
          subst hn
          rw [b, ← hK]
          simp
        | succ n =>
          simp only [List.getElem?_cons_succ] at hn
          have hrs1' : doLoopFloatFrom r0.game (timerAfter r0.game.mTargetTimePerFrame 0) es =
              some rs1 := by
            rw [a] at hrs1
            exact hrs1
          have := ih r0.game 0 rs1 (by rw [hg]; exact hP) (by rw [hg]; exact hmin)
            (by omega) hA' hrs1' n r hn
          rw [this]
          have e1 : j + (n + 1) + 1 = (0 + n + 1) + P := by omega
          have e2 : P ∣ 0 + n + 1 + P ↔ P ∣ 0 + n + 1 := Nat.dvd_add_self_right
          rw [e1]
          simp only [e2]
      · -- no flush
        have hlt : j + 1 < P := by omega
        obtain ⟨a, b⟩ := hno (hmin (j + 1) hlt)
        cases n with
        | zero =>
          simp only [List.getElem?_cons_zero, Option.some.injEq] at hn
          subst hn
          rw [b]
          have : ¬ P ∣ j + 0 + 1 := by
            intro hdvd
            have := Nat.le_of_dvd (by omega) hdvd
            omega
          simp [this]
        | succ n =>
          simp only [List.getElem?_cons_succ] at hn
          have hrs1' : doLoopFloatFrom r0.game
              (timerAfter r0.game.mTargetTimePerFrame (j + 1)) es = some rs1 := by
            rw [a] at hrs1
            rw [hg]
            exact hrs1
          have := ih r0.game (j + 1) rs1 (by rw [hg]; exact hP) (by rw [hg]; exact hmin)
            hlt hA' hrs1' n r hn
          rw [this]
          have e1 : j + (n + 1) + 1 = j + 1 + n + 1 := by omega
          rw [e1]

/-- When no number of additions reaches the threshold, a run never flushes. -/
theorem doLoopFloatFrom_never (es : List Env) :
    ∀ (g : Game) (j : ℕ) (rs : List FloatTickResult),
      (∀ k, reachesThreshold (timerAfter g.mTargetTimePerFrame k) = false) →
      (∀ e ∈ es, e.GetState ≠ .NMS_Delay) →
      doLoopFloatFrom g (timerAfter g.mTargetTimePerFrame j) es = some rs →
      ∀ (n : ℕ) (r : FloatTickResult), rs[n]? = some r →
        r.calls.countP Call.isSendOutgoing = 0 := by
  induction es with
  | nil =>
    intro g j rs _ _ h n r hn
    simp only [doLoopFloatFrom, Option.some.injEq] at h
    subst h
    simp at hn
  | cons e es ih =>
    intro g j rs hnever hA h n r hn
    rcases doLoopFloatFrom_cons h with ⟨-, rfl⟩ | ⟨-, r0, rs1, hr0, hrs1, rfl⟩
    · simp at hn
    · obtain ⟨hg, -, hno⟩ := tickFloat_flush hr0 (hA e (List.mem_cons_self _ _))
      have hA' : ∀ x ∈ es, x.GetState ≠ .NMS_Delay :=
        fun x hx => hA x (List.mem_cons_of_mem _ hx)
      have hnext : addToTimer (timerAfter g.mTargetTimePerFrame j) g.mTargetTimePerFrame =
          timerAfter g.mTargetTimePerFrame (j + 1) := rfl
      rw [hnext] at hno
      obtain ⟨a, b⟩ := hno (hnever (j + 1))
      cases n with
      | zero =>
        simp only [List.getElem?_cons_zero, Option.some.injEq] at hn
        subst hn
        exact b
      | succ n =>
        simp only [List.getElem?_cons_succ] at hn
        have hrs1' : doLoopFloatFrom r0.game
            (timerAfter r0.game.mTargetTimePerFrame (j + 1)) es = some rs1 := by
          rw [a] at hrs1
          rw [hg]
          exact hrs1
        exact ih r0.game (j + 1) rs1 (by rw [hg]; exact hnever) hA' hrs1' n r hn

/-! ## Rounding -/

theorem roundHalfEven_intCast (z : ℤ) : roundHalfEven (z : ℚ) = z := by
  unfold roundHalfEven
  simp

theorem roundHalfEven_up {m : ℚ} {f : ℤ} (h1 : (f : ℚ) + 1 / 2 < m) (h2 : m < (f : ℚ) + 1) :
    roundHalfEven m = f + 1 := by
  have hf : ⌊m⌋ = f := by
    rw [Int.floor_eq_iff]
    constructor <;> linarith
  unfold roundHalfEven
  rw [hf]
  have h3 : ¬ (m - (f : ℚ) < 1 / 2) := by linarith
  have h4 : 1 / 2 < m - (f : ℚ) := by linarith
  rw [if_neg h3, if_pos h4]

theorem roundHalfEven_nonneg {m : ℚ} (h : 0 ≤ m) : 0 ≤ roundHalfEven m := by
  have hf : 0 ≤ ⌊m⌋ := Int.floor_nonneg.mpr h
  unfold roundHalfEven
  split
  · exact hf
  · split
    · omega
    · split
      · exact hf
      · omega

/-- Rounding of a positive `x` whose exponent `e` is known. -/
theorem roundNearest_of_exponent (precision : ℕ) (emin emax e : ℤ) (x q : ℚ) (n : ℤ)
    (h1 : (2 : ℚ) ^ e ≤ x) (h2 : x < (2 : ℚ) ^ (e + 1)) (hemin : emin ≤ e)
    (hq : q = 2 ^ (e - ((precision : ℤ) - 1))) (hn : roundHalfEven (x / q) = n)
    (hlt : (n : ℚ) * q < 2 ^ (emax + 1)) :
    roundNearest precision emin emax x = .finite ((n : ℚ) * q) := by
  have hx : 0 < x := lt_of_lt_of_le (zpow_pos (by norm_num) e) h1
  have habs : |x| = x := abs_of_pos hx
  have hlog : Int.log 2 x = e := by
    apply le_antisymm
    · have := (Int.lt_zpow_iff_log_lt (b := 2) (by norm_num) hx).mp (by exact_mod_cast h2)
      omega
    · exact (Int.zpow_le_iff_le_log (b := 2) (by norm_num) hx).mp (by exact_mod_cast h1)
  have hq0 : 0 < q := by
    rw [hq]
    exact zpow_pos (by norm_num) _
  have hn0 : 0 ≤ n := by
    rw [← hn]
    exact roundHalfEven_nonneg (div_nonneg hx.le hq0.le)
  have hr0 : 0 ≤ (n : ℚ) * q := mul_nonneg (by exact_mod_cast hn0) hq0.le
  have hpow : (0 : ℚ) < 2 ^ (emax + 1) := zpow_pos (by norm_num) _
  unfold roundNearest
  rw [if_neg hx.ne', habs, hlog, max_eq_left hemin]
  simp only [← hq, hn]
  rw [if_neg (not_le.mpr hlt), if_neg]
  linarith

/-- A bound by a small power of two is below the overflow threshold. -/
theorem lt_overflow_of_lt_pow {emax : ℤ} {r : ℚ} (k : ℕ) (hk : (k : ℤ) ≤ emax + 1)
    (h : r < 2 ^ k) : r < 2 ^ (emax + 1) := by
  refine lt_of_lt_of_le h ?_
  rw [← zpow_natCast]
  exact zpow_le_zpow_right₀ (by norm_num) hk

/-- The frame time `250 - 2 ^ (-30)` is a `double`. -/
theorem toDouble_skewedFrameTime : toDouble skewedFrameTime = .finite skewedFrameTime := by
  have h := roundNearest_of_exponent 53 (-1022) 1023 7 skewedFrameTime (1 / 2 ^ 45)
    8796093022175232
    (by norm_num [skewedFrameTime]) (by norm_num [skewedFrameTime]) (by norm_num)
    (by norm_num)
    (by
      have : skewedFrameTime / (1 / 2 ^ 45) = ((8796093022175232 : ℤ) : ℚ) := by
        norm_num [skewedFrameTime]
      rw [this, roundHalfEven_intCast])
    (lt_overflow_of_lt_pow 9 (by norm_num) (by norm_num))
  unfold toDouble
  rw [h]
  norm_num [skewedFrameTime]

/-- As a `float` the frame time `250 - 2 ^ (-30)` is 250. -/
theorem toFloat_skewedFrameTime : toFloat skewedFrameTime = .finite 250 := by
  have h := roundNearest_of_exponent 24 (-126) 127 7 skewedFrameTime (1 / 2 ^ 16)
    (16383999 + 1)
    (by norm_num [skewedFrameTime]) (by norm_num [skewedFrameTime]) (by norm_num)
    (by norm_num)
    (roundHalfEven_up (by norm_num [skewedFrameTime]) (by norm_num [skewedFrameTime]))
    (lt_overflow_of_lt_pow 9 (by norm_num) (by norm_num))
  unfold toFloat
  rw [h]
  norm_num

/-- The sum `250 + (250 - 2 ^ (-30))` is a `double`. -/
theorem toDouble_skewedSum :
    toDouble (250 + skewedFrameTime) = .finite (500 - 1 / 2 ^ 30) := by
  have h := roundNearest_of_exponent 53 (-1022) 1023 8 (250 + skewedFrameTime) (1 / 2 ^ 44)
    8796093022191616
    (by norm_num [skewedFrameTime]) (by norm_num [skewedFrameTime]) (by norm_num)
    (by norm_num)
    (by
      have : (250 + skewedFrameTime) / (1 / 2 ^ 44) = ((8796093022191616 : ℤ) : ℚ) := by
        norm_num [skewedFrameTime]
      rw [this, roundHalfEven_intCast])
    (lt_overflow_of_lt_pow 9 (by norm_num) (by norm_num))
  unfold toDouble
  rw [h]
  norm_num

/-- As a `float` the sum `500 - 2 ^ (-30)` is 500. -/
theorem toFloat_skewedSum : toFloat (500 - 1 / 2 ^ 30) = .finite 500 := by
  have h := roundNearest_of_exponent 24 (-126) 127 8 (500 - 1 / 2 ^ 30) (1 / 2 ^ 15)
    (16383999 + 1)
    (by norm_num) (by norm_num) (by norm_num) (by norm_num)
    (roundHalfEven_up (by norm_num) (by norm_num))
    (lt_overflow_of_lt_pow 10 (by norm_num) (by norm_num))
  unfold toFloat
  rw [h]
  norm_num

theorem timerAfter_skewed_one : timerAfter skewedFrameTime 1 = .finite 250 := by
  simp only [timerAfter, addToTimer, zero_add, toDouble_skewedFrameTime,
    toFloat_skewedFrameTime]

theorem timerAfter_skewed_two : timerAfter skewedFrameTime 2 = .finite 500 := by
  have h1 := timerAfter_skewed_one
  simp only [timerAfter] at h1 ⊢
  rw [h1]
  simp only [addToTimer, toDouble_skewedSum, toFloat_skewedSum]

theorem timerAfter_zero_not_reached (d : ℚ) : reachesThreshold (timerAfter d 0) = false := by
  simp [timerAfter, reachesThreshold]

/-- The number of additions that first reaches the threshold is unique. -/
theorem first_reach_unique {d : ℚ} {P Q : ℕ}
    (hP : reachesThreshold (timerAfter d P) = true)
    (hPmin : ∀ k, k < P → reachesThreshold (timerAfter d k) = false)
    (hQ : reachesThreshold (timerAfter d Q) = true)
    (hQmin : ∀ k, k < Q → reachesThreshold (timerAfter d k) = false) : P = Q := by
  rcases Nat.lt_trichotomy P Q with h | h | h
  · rw [hQmin P h] at hP
    simp at hP
  · exact h
  · rw [hPmin Q h] at hQ
    simp at hQ

/-- C3, as the code has it: `packetTimer` is a `float` to which the `double` frame time `d`
is added, each addition rounded.  For `d > 0` and a run of the loop of `Game::doLoop` whose
iterations are all in a state other than `NMS_Delay`, started with `packetTimer` 0, the
iteration numbered `n + 1` calls `SendOutgoingPackets` at most once, and it calls it
exactly when `n + 1` is the first iteration since the previous flush (or the start) at
which the time accumulated since then by rounded additions reaches 500.  So when `P`
additions are the first to reach 500 the flushes are exactly on the multiples of `P`, and
when no number of additions reaches 500 there is no flush; `P` is `⌈500 / d⌉` when the
additions up to that many are exact.  The loop runs when the buffers are loaded. -/
theorem float_flush_cadence (g : Game) (envs : List Env)
    (hd : 0 < g.mTargetTimePerFrame) (hA : ∀ e ∈ envs, e.GetState ≠ .NMS_Delay) :
    (∀ rs, doLoopFloat g envs = some rs →
      (∀ (n : ℕ) (r : FloatTickResult), rs[n]? = some r →
        r.calls.countP Call.isSendOutgoing ≤ 1 ∧
        (1 ≤ r.calls.countP Call.isSendOutgoing ↔
          reachesThreshold (timerAfter g.mTargetTimePerFrame
              (n + 1 - prevFlush (rs.map FloatTickResult.calls) (n + 1))) = true ∧
            ∀ m, prevFlush (rs.map FloatTickResult.calls) (n + 1) < m → m < n + 1 →
              reachesThreshold (timerAfter g.mTargetTimePerFrame
                (m - prevFlush (rs.map FloatTickResult.calls) (n + 1))) = false)) ∧
      (∀ P, reachesThreshold (timerAfter g.mTargetTimePerFrame P) = true →
        (∀ k, k < P → reachesThreshold (timerAfter g.mTargetTimePerFrame k) = false) →
        ∀ (n : ℕ) (r : FloatTickResult), rs[n]? = some r →
          (1 ≤ r.calls.countP Call.isSendOutgoing ↔ P ∣ n + 1)) ∧
      ((∀ k, reachesThreshold (timerAfter g.mTargetTimePerFrame k) = false) →
        ∀ (n : ℕ) (r : FloatTickResult), rs[n]? = some r →
          r.calls.countP Call.isSendOutgoing = 0) ∧
      ((∀ k : ℕ, k ≤ ⌈(500 : ℚ) / g.mTargetTimePerFrame⌉₊ →
          timerAfter g.mTargetTimePerFrame k = .finite ((k : ℚ) * g.mTargetTimePerFrame)) →
        ∀ (n : ℕ) (r : FloatTickResult), rs[n]? = some r →
          (1 ≤ r.calls.countP Call.isSendOutgoing ↔
            ⌈(500 : ℚ) / g.mTargetTimePerFrame⌉₊ ∣ n + 1))) ∧
      ((∀ e ∈ envs, e.buffersLoaded) → ∃ rs, doLoopFloat g envs = some rs ∧
        (g.mShouldContinue = true → (∀ e ∈ envs, e.input.ESCAPE_KEY = false) →
          rs.length = envs.length)) := by
  refine ⟨?_, fun hb => doLoopFloatFrom_isSome envs hb g (.finite 0)⟩
  intro rs h
  have hstart : doLoopFloatFrom g (timerAfter g.mTargetTimePerFrame 0) envs = some rs := h
  have h0 := timerAfter_zero_not_reached g.mTargetTimePerFrame
  -- the flushes when `P` additions are the first to reach the threshold
  have periodic : ∀ P, reachesThreshold (timerAfter g.mTargetTimePerFrame P) = true →
      (∀ k, k < P → reachesThreshold (timerAfter g.mTargetTimePerFrame k) = false) →
      ∀ (n : ℕ) (r : FloatTickResult), rs[n]? = some r →
        r.calls.countP Call.isSendOutgoing = if P ∣ n + 1 then 1 else 0 := by
    intro P hP hmin n r hn
    have hpos : 0 < P := by
      rcases Nat.eq_zero_or_pos P with h1 | h1
      · rw [h1, h0] at hP
        simp at hP
      · exact h1
    have := doLoopFloatFrom_flushes P envs g 0 rs hP hmin hpos hA hstart n r hn
    simpa using this
  have never : (∀ k, reachesThreshold (timerAfter g.mTargetTimePerFrame k) = false) →
      ∀ (n : ℕ) (r : FloatTickResult), rs[n]? = some r →
        r.calls.countP Call.isSendOutgoing = 0 :=
    fun hnever => doLoopFloatFrom_never envs g 0 rs hnever hA hstart
  have iffOf : ∀ (P n : ℕ) (r : FloatTickResult),
      r.calls.countP Call.isSendOutgoing = (if P ∣ n + 1 then 1 else 0) →
      (1 ≤ r.calls.countP Call.isSendOutgoing ↔ P ∣ n + 1) := by
    intro P n r hc
    rw [hc]
    by_cases hdv : P ∣ n + 1 <;> simp [hdv]
  have exact : (∀ k : ℕ, k ≤ ⌈(500 : ℚ) / g.mTargetTimePerFrame⌉₊ →
      timerAfter g.mTargetTimePerFrame k = .finite ((k : ℚ) * g.mTargetTimePerFrame)) →
      reachesThreshold (timerAfter g.mTargetTimePerFrame
        ⌈(500 : ℚ) / g.mTargetTimePerFrame⌉₊) = true ∧
      ∀ k, k < ⌈(500 : ℚ) / g.mTargetTimePerFrame⌉₊ →
        reachesThreshold (timerAfter g.mTargetTimePerFrame k) = false := by
    intro hex
    constructor
    · rw [hex _ (le_refl _)]
      simp only [reachesThreshold, decide_eq_true_eq]
      exact (frames_reach_threshold hd _).mpr (le_refl _)
    · intro k hk
      rw [hex k hk.le]
      simp only [reachesThreshold, decide_eq_false_iff_not]
      rw [frames_reach_threshold hd]
      omega
  have hmapget : ∀ (n : ℕ) (cs : List Call),
      (rs.map FloatTickResult.calls)[n]? = some cs → ∃ r, rs[n]? = some r ∧ r.calls = cs := by
    intro n cs hcs
    rw [List.getElem?_map] at hcs
    cases hr : rs[n]? with
    | none => rw [hr] at hcs; simp at hcs
    | some r =>
      rw [hr] at hcs
      simp only [Option.map_some', Option.some.injEq] at hcs
      exact ⟨r, rfl, hcs⟩
  by_cases hreach : ∃ P, reachesThreshold (timerAfter g.mTargetTimePerFrame P) = true
  · -- some number of additions reaches the threshold: take the first
    have hP := Nat.find_spec hreach
    have hmin : ∀ k, k < Nat.find hreach →
        reachesThreshold (timerAfter g.mTargetTimePerFrame k) = false := by
      intro k hk
      have := Nat.find_min hreach hk
      simpa using this
    have hall := periodic (Nat.find hreach) hP hmin
    have hpos : 0 < Nat.find hreach := by
      rcases Nat.eq_zero_or_pos (Nat.find hreach) with h1 | h1
      · rw [h1, h0] at hP
        simp at hP
      · exact h1
    refine ⟨?_, ?_, ?_, ?_⟩
    · intro n r hn
      have hc := hall n r hn
      have hcount := iffOf _ n r hc
      have hlen : n < rs.length := by
        by_contra hge
        rw [List.getElem?_eq_none (by omega)] at hn
        simp at hn
      have hticks : ∀ (m : ℕ) (cs : List Call),
          (rs.map FloatTickResult.calls)[m]? = some cs →
          cs.countP Call.isSendOutgoing = if Nat.find hreach ∣ m + 1 then 1 else 0 := by
        intro m cs hcs
        obtain ⟨r1, hr1, rfl⟩ := hmapget m cs hcs
        exact hall m r1 hr1
      have hp : prevFlush (rs.map FloatTickResult.calls) (n + 1) =
          Nat.find hreach * (n / Nat.find hreach) := by
        have := prevFlush_eq hticks (n + 1) (by rw [List.length_map]; omega)
        simpa using this
      have hmod : n % Nat.find hreach < Nat.find hreach := Nat.mod_lt n hpos
      have hdm := Nat.div_add_mod n (Nat.find hreach)
      refine ⟨?_, ?_⟩
      · rw [hc]
        split <;> omega
      · rw [hcount, hp, dvd_succ_iff_since_last hpos n]
        constructor
        · intro hle
          have heq : n + 1 - Nat.find hreach * (n / Nat.find hreach) = Nat.find hreach := by
            omega
          refine ⟨by rw [heq]; exact hP, ?_⟩
          intro m hm1 hm2
          exact hmin _ (by omega)
        · rintro ⟨hr, -⟩
          by_contra hlt
          rw [hmin _ (by omega)] at hr
          simp at hr
    · intro P hP1 hP1min n r hn
      have heq : P = Nat.find hreach := first_reach_unique hP1 hP1min hP hmin
      rw [heq]
      exact iffOf _ n r (hall n r hn)
    · intro hnever
      rw [hnever (Nat.find hreach)] at hP
      simp at hP
    · intro hex n r hn
      obtain ⟨e1, e2⟩ := exact hex
      exact iffOf _ n r (periodic _ e1 e2 n r hn)
  · -- no number of additions reaches the threshold
    have hnever : ∀ k, reachesThreshold (timerAfter g.mTargetTimePerFrame k) = false := by
      intro k
      by_contra hk
      exact hreach ⟨k, by simpa using hk⟩
    have hall := never hnever
    refine ⟨?_, ?_, ?_, ?_⟩
    · intro n r hn
      have hc := hall n r hn
      refine ⟨by omega, ?_⟩
      rw [hc]
      constructor
      · intro h1
        omega
      · rintro ⟨hr, -⟩
        rw [hnever] at hr
        simp at hr
    · intro P hP1 _ n r hn
      rw [hnever P] at hP1
      simp at hP1
    · exact fun _ => hall
    · intro hex n r hn
      obtain ⟨e1, -⟩ := exact hex
      rw [hnever] at e1
      simp at e1

/-- Rounding of a positive `x` that is a whole number `n` of units of its exponent. -/
theorem roundNearest_exact (precision : ℕ) (emin emax e : ℤ) (x q : ℚ) (n : ℤ)
    (h1 : (2 : ℚ) ^ e ≤ x) (h2 : x < (2 : ℚ) ^ (e + 1)) (hemin : emin ≤ e)
    (hq : q = 2 ^ (e - ((precision : ℤ) - 1))) (hx : x / q = (n : ℚ))
    (hlt : (n : ℚ) * q < 2 ^ (emax + 1)) :
    roundNearest precision emin emax x = .finite x := by
  have hq0 : q ≠ 0 := by
    rw [hq]
    exact (zpow_pos (by norm_num) _).ne'
  have hn : roundHalfEven (x / q) = n := by rw [hx, roundHalfEven_intCast]
  rw [roundNearest_of_exponent precision emin emax e x q n h1 h2 hemin hq hn hlt, ← hx,
    div_mul_cancel₀ x hq0]

theorem addToTimer_zero_coarse : addToTimer (.finite 0) 250 = .finite 250 := by
  have hD : toDouble 250 = .finite 250 :=
    roundNearest_exact 53 (-1022) 1023 7 250 (1 / 2 ^ 45) 8796093022208000
      (by norm_num) (by norm_num) (by norm_num) (by norm_num) (by norm_num)
      (lt_overflow_of_lt_pow 9 (by norm_num) (by norm_num))
  have hF : toFloat 250 = .finite 250 :=
    roundNearest_exact 24 (-126) 127 7 250 (1 / 2 ^ 16) 16384000
      (by norm_num) (by norm_num) (by norm_num) (by norm_num) (by norm_num)
      (lt_overflow_of_lt_pow 9 (by norm_num) (by norm_num))
  simp only [addToTimer, zero_add, hD, hF]

theorem addToTimer_coarse_coarse : addToTimer (.finite 250) 250 = .finite 500 := by
  have hD : toDouble 500 = .finite 500 :=
    roundNearest_exact 53 (-1022) 1023 8 500 (1 / 2 ^ 44) 8796093022208000
      (by norm_num) (by norm_num) (by norm_num) (by norm_num) (by norm_num)
      (lt_overflow_of_lt_pow 10 (by norm_num) (by norm_num))
  have hF : toFloat 500 = .finite 500 :=
    roundNearest_exact 24 (-126) 127 8 500 (1 / 2 ^ 15) 16384000
      (by norm_num) (by norm_num) (by norm_num) (by norm_num) (by norm_num)
      (lt_overflow_of_lt_pow 10 (by norm_num) (by norm_num))
  have hsum : (250 : ℚ) + 250 = 500 := by norm_num
  simp only [addToTimer, hsum, hD, hF]

theorem ceil_coarse : ⌈(500 : ℚ) / 250⌉₊ = 2 := by
  rw [show (500 : ℚ) / 250 = ((2 : ℕ) : ℚ) by norm_num, Nat.ceil_natCast]

/-- At a frame time of 250 the additions up to `⌈500 / 250⌉` are exact. -/
theorem timerAfter_coarse (k : ℕ) (hk : k ≤ ⌈(500 : ℚ) / 250⌉₊) :
    timerAfter 250 k = .finite ((k : ℚ) * 250) := by
  rw [ceil_coarse] at hk
  have h1 : timerAfter 250 1 = .finite 250 := addToTimer_zero_coarse
  have h2 : timerAfter 250 2 = .finite 500 := by
    show addToTimer (timerAfter 250 1) 250 = .finite 500
    rw [h1]
    exact addToTimer_coarse_coarse
  rcases (by omega : k = 0 ∨ k = 1 ∨ k = 2) with rfl | rfl | rfl
  · simp [timerAfter]
  · rw [h1]
    norm_num
  · rw [h2]
    norm_num

theorem float_flush_cadence_witness :
    0 < coarseGame.mTargetTimePerFrame ∧ (∀ e ∈ activeRun, e.GetState ≠ .NMS_Delay) ∧
      ∃ rs, doLoopFloat coarseGame activeRun = some rs ∧ rs.length = 4 ∧
        ∀ (n : ℕ) (r : FloatTickResult), rs[n]? = some r →
          r.calls.countP Call.isSendOutgoing ≤ 1 ∧
          (1 ≤ r.calls.countP Call.isSendOutgoing ↔
            ⌈(500 : ℚ) / coarseGame.mTargetTimePerFrame⌉₊ ∣ n + 1) ∧
          (1 ≤ r.calls.countP Call.isSendOutgoing ↔
            reachesThreshold (timerAfter coarseGame.mTargetTimePerFrame
                (n + 1 - prevFlush (rs.map FloatTickResult.calls) (n + 1))) = true ∧
              ∀ m, prevFlush (rs.map FloatTickResult.calls) (n + 1) < m → m < n + 1 →
                reachesThreshold (timerAfter coarseGame.mTargetTimePerFrame
                  (m - prevFlush (rs.map FloatTickResult.calls) (n + 1))) = false) := by
  have hd : 0 < coarseGame.mTargetTimePerFrame := by norm_num [coarseGame]
  obtain ⟨h1, h2⟩ := float_flush_cadence coarseGame activeRun hd activeRun_notDelayed
  obtain ⟨rs, hrs, hlen⟩ := h2 activeRun_buffersLoaded
  obtain ⟨hfirst, -, -, hexact⟩ := h1 rs hrs
  refine ⟨hd, activeRun_notDelayed, rs, hrs, hlen rfl activeRun_noEscape, ?_⟩
  intro n r hn
  exact ⟨(hfirst n r hn).1, hexact timerAfter_coarse n r hn, (hfirst n r hn).2⟩

/-- C3, as the claim has it, fails: at the frame time `d = 250 - 2 ^ (-30)`, which is a
`double`, `⌈500 / d⌉` is 3 and two frame times are less than 500, yet in a run of four
iterations none of which is delayed the second iteration calls `SendOutgoingPackets`: the
`float` timer is 250 after the first addition and 500 after the second. -/
theorem float_flush_before_ceil_period :
    0 < skewedGame.mTargetTimePerFrame ∧
      toDouble skewedGame.mTargetTimePerFrame = .finite skewedGame.mTargetTimePerFrame ∧
      (∀ e ∈ activeRun, e.GetState ≠ .NMS_Delay) ∧
      ⌈(500 : ℚ) / skewedGame.mTargetTimePerFrame⌉₊ = 3 ∧
      2 * skewedGame.mTargetTimePerFrame < 500 ∧
      timerAfter skewedGame.mTargetTimePerFrame 2 = .finite 500 ∧
      ∃ rs, doLoopFloat skewedGame activeRun = some rs ∧ rs.length = 4 ∧
        ∃ r, rs[1]? = some r ∧ r.calls.countP Call.isSendOutgoing = 1 ∧
          ¬ ⌈(500 : ℚ) / skewedGame.mTargetTimePerFrame⌉₊ ∣ 1 + 1 := by
  have hceil : ⌈(500 : ℚ) / skewedGame.mTargetTimePerFrame⌉₊ = 3 := by
    rw [Nat.ceil_eq_iff (by norm_num)]
    constructor <;> norm_num [skewedGame, skewedFrameTime]
  have hreach : reachesThreshold (timerAfter skewedGame.mTargetTimePerFrame 2) = true := by
    show reachesThreshold (timerAfter skewedFrameTime 2) = true
    rw [timerAfter_skewed_two]
    simp [reachesThreshold]
  have hmin : ∀ k, k < 2 →
      reachesThreshold (timerAfter skewedGame.mTargetTimePerFrame k) = false := by
    intro k hk
    show reachesThreshold (timerAfter skewedFrameTime k) = false
    rcases (by omega : k = 0 ∨ k = 1) with rfl | rfl
    · exact timerAfter_zero_not_reached _
    · rw [timerAfter_skewed_one]
      simp only [reachesThreshold, decide_eq_false_iff_not]
      norm_num
  obtain ⟨rs, hrs, hlen⟩ := doLoopFloatFrom_isSome activeRun activeRun_buffersLoaded
    skewedGame (.finite 0)
  have hlen4 : rs.length = 4 := hlen rfl activeRun_noEscape
  have hget : rs[1]? = some rs[1] := List.getElem?_eq_getElem (by omega)
  have hcount := doLoopFloatFrom_flushes 2 activeRun skewedGame 0 rs hreach hmin (by norm_num)
    activeRun_notDelayed hrs 1 rs[1] hget
  refine ⟨by norm_num [skewedGame, skewedFrameTime], toDouble_skewedFrameTime,
    activeRun_notDelayed, hceil, by norm_num [skewedGame, skewedFrameTime],
    timerAfter_skewed_two, rs, hrs, hlen4, rs[1], hget, by simpa using hcount, ?_⟩
  rw [hceil]
  decide

/-! ## The range of the flush timer in floating point -/

/-- Rounding of a number that is not negative gives a number that is not negative, or
overflows. -/
theorem roundNearest_nonneg (precision : ℕ) (emin emax : ℤ) {x : ℚ} (hx : 0 ≤ x) :
    roundNearest precision emin emax x = .posInf ∨
      ∃ q, roundNearest precision emin emax x = .finite q ∧ 0 ≤ q := by
  unfold roundNearest
  by_cases h0 : x = 0
  · rw [if_pos h0]
    exact Or.inr ⟨0, rfl, le_refl 0⟩
  · rw [if_neg h0]
    have hq0 : (0 : ℚ) < 2 ^ (max (Int.log 2 |x|) emin - ((precision : ℤ) - 1)) :=
      zpow_pos (by norm_num) _
    have hr0 : 0 ≤ (roundHalfEven
        (x / 2 ^ (max (Int.log 2 |x|) emin - ((precision : ℤ) - 1))) : ℚ) *
        2 ^ (max (Int.log 2 |x|) emin - ((precision : ℤ) - 1)) :=
      mul_nonneg (by exact_mod_cast roundHalfEven_nonneg (div_nonneg hx hq0.le)) hq0.le
    have hpow : (0 : ℚ) < 2 ^ (emax + 1) := zpow_pos (by norm_num) _
    simp only
    split
    · exact Or.inl rfl
    · rw [if_neg (by linarith)]
      exact Or.inr ⟨_, rfl, hr0⟩

theorem addToTimer_nonneg {t dt : ℚ} (ht : 0 ≤ t) (hdt : 0 ≤ dt) :
    addToTimer (.finite t) dt = .posInf ∨
      ∃ q, addToTimer (.finite t) dt = .finite q ∧ 0 ≤ q := by
  have hD : toDouble (t + dt) = .posInf ∨ ∃ q, toDouble (t + dt) = .finite q ∧ 0 ≤ q :=
    roundNearest_nonneg 53 (-1022) 1023 (add_nonneg ht hdt)
  rcases hD with h | ⟨s, h, hs⟩
  · simp only [addToTimer, h]
    exact Or.inl trivial
  · simp only [addToTimer, h]
    exact roundNearest_nonneg 24 (-126) 127 hs

theorem doLoopFloatFrom_timer_bounds (es : List Env) :
    ∀ (g : Game) (t : ℚ) (rs : List FloatTickResult), 0 ≤ g.mTargetTimePerFrame →
      0 ≤ t → t < 500 → doLoopFloatFrom g (.finite t) es = some rs →
      ∀ r ∈ rs, ∃ q, r.packetTimer = .finite q ∧ 0 ≤ q ∧ q < 500 ∧
        (r.calls.countP Call.isSendOutgoing ≠ 0 → q = 0) := by
  induction es with
  | nil =>
    intro g t rs _ _ _ h
    simp only [doLoopFloatFrom, Option.some.injEq] at h
    subst h
    simp
  | cons e es ih =>
    intro g t rs hd h0 h5 h
    rcases doLoopFloatFrom_cons h with ⟨-, rfl⟩ | ⟨-, r, rs1, hr, hrs1, rfl⟩
    · simp
    · obtain ⟨hg, -⟩ := tickFloat_game hr
      have hr0 : ∃ q, r.packetTimer = .finite q ∧ 0 ≤ q ∧ q < 500 ∧
          (r.calls.countP Call.isSendOutgoing ≠ 0 → q = 0) := by
        by_cases hs : e.GetState = .NMS_Delay
        · obtain ⟨a, b⟩ := tickFloat_delay hr hs
          exact ⟨t, a, h0, h5, fun hne => absurd b hne⟩
        · obtain ⟨-, hyes, hno⟩ := tickFloat_flush hr hs
          cases hreach : reachesThreshold (addToTimer (.finite t) g.mTargetTimePerFrame)
          · obtain ⟨a, b⟩ := hno hreach
            rcases addToTimer_nonneg h0 hd with hinf | ⟨q, hq, hq0⟩
            · rw [hinf] at hreach
              simp [reachesThreshold] at hreach
            · rw [hq] at hreach a
              simp only [reachesThreshold, decide_eq_false_iff_not, not_le] at hreach
              exact ⟨q, a, hq0, hreach, fun hne => absurd b hne⟩
          · obtain ⟨a, -⟩ := hyes hreach
            exact ⟨0, a, le_refl 0, by norm_num, fun _ => rfl⟩
      intro x hx
      rcases List.mem_cons.mp hx with rfl | hx
      · exact hr0
      · obtain ⟨q, hq, hq0, hq5, -⟩ := hr0
        rw [hq] at hrs1
        exact ih r.game q rs1 (by rw [hg]; exact hd) hq0 hq5 hrs1 x hx

/-- The range of the flush timer with the `float` arithmetic of `packetTimer`: for a frame
time that is not negative and any session states, after every iteration `packetTimer` is a
finite `float` with `0 <= packetTimer < 500`, and exactly 0 when the iteration called
`SendOutgoingPackets`. -/
theorem packetTimerFloat_stays_in_range (g : Game) (envs : List Env)
    (hd : 0 ≤ g.mTargetTimePerFrame) :
    ∀ rs, doLoopFloat g envs = some rs →
      ∀ r ∈ rs, ∃ q, r.packetTimer = .finite q ∧ 0 ≤ q ∧ q < 500 ∧
        (r.calls.countP Call.isSendOutgoing ≠ 0 → q = 0) :=
  fun rs h => doLoopFloatFrom_timer_bounds envs g 0 rs hd (le_refl 0) (by norm_num) h

theorem packetTimer_stays_in_range_witness :
    0 ≤ coarseGame.mTargetTimePerFrame ∧
      ∃ rs, doLoop coarseGame mixedRun = some rs ∧ rs.length = 4 ∧
        ∀ r ∈ rs, 0 ≤ r.packetTimer ∧ r.packetTimer < 500 ∧
          (r.calls.countP Call.isSendOutgoing ≠ 0 → r.packetTimer = 0) := by
  have hd : 0 ≤ coarseGame.mTargetTimePerFrame := by norm_num [coarseGame]
  obtain ⟨h1, h2⟩ := packetTimer_stays_in_range coarseGame mixedRun hd
  obtain ⟨rs, hrs, hlen⟩ := h2 mixedRun_buffersLoaded
  exact ⟨hd, rs, hrs, hlen rfl mixedRun_noEscape, (h1 rs hrs).2⟩

/-- The run `activeRun` at a frame time of 250: the timer after each iteration and the
number of flushes in it. -/
theorem coarse_active_run :
    (doLoop coarseGame activeRun).map
        (List.map fun r => (r.packetTimer, r.calls.countP Call.isSendOutgoing)) =
      some [(250, 0), (0, 1), (250, 0), (0, 1)] := by
  simp [doLoop, doLoopFrom, tick, getInput, inputStarted, inputEnter, inputSpace, inputLeft,
    inputRight, inputOne, inputTwo, render, service, update, coarseGame, activeRun,
    sampleEnv, noInput, spaceInput, Call.isSendOutgoing, List.countP_cons]
  norm_num
  rfl

/-- The run `mixedRun` at a frame time of 250: the delayed second iteration leaves the
timer alone and the flush comes one iteration later. -/
theorem coarse_mixed_run :
    (doLoop coarseGame mixedRun).map
        (List.map fun r => (r.packetTimer, r.calls.countP Call.isSendOutgoing)) =
      some [(250, 0), (250, 0), (0, 1), (250, 0)] := by
  simp [doLoop, doLoopFrom, tick, getInput, inputStarted, inputEnter, inputSpace, inputLeft,
    inputRight, inputOne, inputTwo, render, service, update, coarseGame, mixedRun,
    sampleEnv, noInput, Call.isSendOutgoing, List.countP_cons]
  norm_num
  rfl

/-- What `getInput` does with every action key and both buttons pressed. -/
theorem busy_getInput :
    getInput startedGame busyEnv =
      some (startedGame,
        [.getInput,
          .toggleAnimation ⟨7, ⟨10, 20⟩⟩, .addAction .ToggleAnimSingle ⟨10, 20⟩,
          .togglePauseStateForAllAnimations, .addAction .ToggleAnimAll ⟨0, 0⟩,
          .createUnit ⟨100, 200⟩ .BASE_UNIT,
          .UnitManager_createUnit ⟨100, 200⟩ (mkAnimation .SMURFS (167 / 2))
            (mkAnimation .DEAN (167 / 2)),
          .addAction .CreateUnit ⟨100, 200⟩,
          .deleteAllUnitsAt2DPosition ⟨100, 200⟩, .addAction .DestroyUnit ⟨100, 200⟩,
          .createUnit ⟨100, 200⟩ .RAND_DIR,
          .UnitManager_createUnit ⟨100, 200⟩ (mkAnimation .NUMBERED (167 / 2))
            (mkAnimation .DEAN (167 / 2)),
          .addAction .CreateUnitMove ⟨100, 200⟩,
          .rand, .rand,
          .createUnit ⟨434, 278⟩ .RAND_SPAWN,
          .UnitManager_createUnit ⟨434, 278⟩ (mkAnimation .DEAN (167 / 2))
            (mkAnimation .SMURFS (167 / 2)),
          .addAction .CreateUnitRand ⟨434, 278⟩]) := by
  simp [getInput, inputStarted, inputEnter, inputSpace, inputLeft, inputRight, inputOne,
    inputTwo, createUnit, randPosition, startedGame, busyEnv, busyInput,
    TIME_PER_FRAME_MULTIPLE]
  norm_num

theorem getInput_applies_what_HandleAction_applies_witness :
    ∃ hc pre1, HandleAction startedGame busyEnv .CreateUnitRand ⟨434, 278⟩ = some hc ∧
      [Call.getInput,
          .toggleAnimation ⟨7, ⟨10, 20⟩⟩, .addAction .ToggleAnimSingle ⟨10, 20⟩,
          .togglePauseStateForAllAnimations, .addAction .ToggleAnimAll ⟨0, 0⟩,
          .createUnit ⟨100, 200⟩ .BASE_UNIT,
          .UnitManager_createUnit ⟨100, 200⟩ (mkAnimation .SMURFS (167 / 2))
            (mkAnimation .DEAN (167 / 2)),
          .addAction .CreateUnit ⟨100, 200⟩,
          .deleteAllUnitsAt2DPosition ⟨100, 200⟩, .addAction .DestroyUnit ⟨100, 200⟩,
          .createUnit ⟨100, 200⟩ .RAND_DIR,
          .UnitManager_createUnit ⟨100, 200⟩ (mkAnimation .NUMBERED (167 / 2))
            (mkAnimation .DEAN (167 / 2)),
          .addAction .CreateUnitMove ⟨100, 200⟩,
          .rand, .rand,
          .createUnit ⟨434, 278⟩ .RAND_SPAWN,
          .UnitManager_createUnit ⟨434, 278⟩ (mkAnimation .DEAN (167 / 2))
            (mkAnimation .SMURFS (167 / 2))] = pre1 ++ hc :=
  ((getInput_applies_what_HandleAction_applies startedGame busyEnv).1 startedGame _
    busy_getInput).2 _ [] .CreateUnitRand ⟨434, 278⟩ rfl

end SocketDemo
